import Mathlib

/-!
# Sentinel-1 ten-day composites: windows, band names, parcel subsets

A shallow embedding of `gee/01_s1_export_tasks.js`.  The script is a chain of
Earth Engine client calls.  Every call the script makes is modelled by a Lean
function of the same name, and the script's top-level variables (`days`,
`dates`, `s1`, `s1_lin`, `s1res`, `s1stack`, `parcel`, ...) become functions of
the inputs they are computed from: the configuration (`start_date`,
`end_date`, `step`), the image catalogue and the polygon collection.  A
request that the engine rejects when it is evaluated is the value `none`.

Dates of the script are calendar days (`'2018-01-01'`), that is timestamps at
midnight UTC.  A date is represented by its day number counted from
1970-01-01; acquisition timestamps (`system:time_start`) are milliseconds
counted from the same instant.
-/

namespace S1Export

/-! ## Dates -/

/-- Milliseconds in one day. -/
def msPerDay : Nat := 86400000

/-- Millisecond timestamp of the midnight that starts day `d`. -/
def millis (d : Nat) : Nat := d * msPerDay

/-- The call `a.difference(b, 'day')` for two midnights: the signed number of days from `b` to `a`. -/
def difference (a b : Nat) : Int := (a : Int) - (b : Int)

/-- The call `t.advance(d, 'day')`. -/
def advance (t : Nat) (d : Int) : Nat := ((t : Int) + d).toNat

/-- Gregorian leap years. -/
def isLeapYear (y : Nat) : Bool := y % 4 == 0 && (y % 100 != 0 || y % 400 == 0)

/-- Number of days of year `y`. -/
def yearLength (y : Nat) : Nat := if isLeapYear y then 366 else 365

/-- Number of days of month `m` (1 to 12) of year `y`. -/
def monthLength (y m : Nat) : Nat :=
  if m = 2 then (if isLeapYear y then 29 else 28)
  else if m = 4 ∨ m = 6 ∨ m = 9 ∨ m = 11 then 30
  else 31

/-- Walks whole years: `n` days after 1 January of year `y` lie in the returned year, at the
returned offset from its 1 January.  The first argument bounds the number of years walked. -/
def splitYear : Nat → Nat → Nat → Nat × Nat
  | 0, y, n => (y, n)
  | fuel + 1, y, n =>
    if n < yearLength y then (y, n) else splitYear fuel (y + 1) (n - yearLength y)

/-- Walks whole months of year `y`: `n` days after the first of month `m` lie in the returned
month, at the returned offset from its first day. -/
def splitMonth : Nat → Nat → Nat → Nat → Nat × Nat
  | 0, _, m, n => (m, n)
  | fuel + 1, y, m, n =>
    if n < monthLength y m then (m, n) else splitMonth fuel y (m + 1) (n - monthLength y m)

/-- Number of days in the `f + 1` months of year `y` that start with month `m`. -/
def daysFrom (y m : Nat) : Nat → Nat
  | 0 => monthLength y m
  | f + 1 => monthLength y m + daysFrom y (m + 1) f

/-- A calendar date. -/
structure Civil where
  year : Nat
  month : Nat
  day : Nat
deriving DecidableEq, Repr

/-- Calendar date of day number `d` (day 0 is 1970-01-01). -/
def civil (d : Nat) : Civil :=
  let yr := splitYear d 1970 d
  let md := splitMonth 11 yr.1 1 yr.2
  ⟨yr.1, md.1, md.2 + 1⟩

/-- Decimal digits of `n`, least significant first; the first argument bounds their number. -/
def digitsLE : Nat → Nat → List Nat
  | 0, _ => []
  | fuel + 1, n => if n < 10 then [n] else (n % 10) :: digitsLE fuel (n / 10)

/-- The character of a decimal digit. -/
def digitChar (d : Nat) : Char := Char.ofNat (48 + d)

/-- Decimal rendering of `n`, zero-padded on the left to at least `width` characters. -/
def fmtNat (width n : Nat) : List Char :=
  let ds := (digitsLE (n + 1) n).reverse
  (List.replicate (width - ds.length) 0 ++ ds).map digitChar

/-- The call `t.format('YYYYMMdd')`: year (at least four digits), month and day of month
(two digits each). -/
def format (t : Nat) : String :=
  let c := civil t
  String.mk (fmtNat 4 c.year ++ fmtNat 2 c.month ++ fmtNat 2 c.day)

/-! ## Lists -/

/-- The call `ee.List.sequence(start, end, step)` with a positive integer step:
`start, start + step, ...` as long as the value does not exceed `end`. -/
def sequence (start stop : Int) (step : Nat) : List Int :=
  if stop < start then []
  else (List.range ((stop - start).toNat / step + 1)).map (fun k => start + ((k * step : Nat) : Int))

/-- Position in a list of length `n` denoted by a slice index: negative indices count from the
end, and every index is clamped to `[0, n]`. -/
def sliceIndex (n : Nat) (i : Int) : Nat :=
  if i < 0 then ((n : Int) + i).toNat else min i.toNat n

/-- The call `l.slice(start, end)`; `stop = none` is the one-argument form `l.slice(start)`. -/
def slice {α : Type} (l : List α) (start : Int) (stop : Option Int) : List α :=
  let e := match stop with
    | none => l.length
    | some j => sliceIndex l.length j
  (l.take e).drop (sliceIndex l.length start)

/-- The call `l.get(i)` for `i ≥ 0`: an error when the index is out of range. -/
def get {α : Type} (l : List α) (i : Nat) : Option α := l.get? i

/-- The call `l.iterate(f, first)`: `f` receives the current element first and the result of the
previous iteration second. -/
def iterate {α β : Type} (l : List α) (f : α → β → β) (first : β) : β :=
  l.foldl (fun previous current => f current previous) first

/-! ## Ten-day windows (`days`, `dates`) -/

/-- The script's `days`: the window boundaries. -/
def days (start_date end_date step : Nat) : List Nat :=
  (sequence 0 (difference end_date start_date) step).map (fun d => advance start_date d)

/-- The script's `dates`: consecutive boundaries paired into windows `(t0, t1)`. -/
def dates (start_date end_date step : Nat) : List (Nat × Nat) :=
  (slice (days start_date end_date step) 0 (some (-1))).zip
    (slice (days start_date end_date step) 1 none)

/-- The test applied by `filterDate(t0, t1)` to a timestamp: `t0 ≤ ts < t1`, the end exclusive. -/
def inRange (t0 t1 : Nat) (ts : Nat) : Bool :=
  decide (millis t0 ≤ ts) && decide (ts < millis t1)

/-! ## Images -/

/-- One raster band: at every pixel a value, or `none` where the pixel is masked (no-data). -/
abbrev Raster (Px V : Type) := Px → Option V

/-- An `ee.Image`: named bands in order, and the properties the script reads. -/
structure Image (Px V : Type) where
  bands : List (String × Raster Px V)
  time_start : Option Nat
  instrumentMode : Option String
  transmitterReceiverPolarisation : List String

/-- The call `ee.Kernel.rectangle(xRadius, yRadius)`. -/
structure Kernel where
  xRadius : Nat
  yRadius : Nat
deriving DecidableEq, Repr

/-- The call `ee.Kernel.rectangle(x, y)`. -/
def Kernel.rectangle (x y : Nat) : Kernel := ⟨x, y⟩

/-- Per-pixel operations that the execution engine supplies and the script only names; `toByte`
is the cast to an unsigned 8-bit integer. -/
structure Engine (Px V : Type) where
  pow : V → V → V
  log10 : V → V
  toByte : V → Nat
  toFloat : V → V
  connectedComponents : Image Px Nat → Kernel → Nat → Image Px Int

variable {Px V W : Type}

/-- The call `img.bandNames()`. -/
def Image.bandNames (img : Image Px V) : List String := img.bands.map Prod.fst

/-- A per-pixel operation with one image operand (`divide(c)`, `log10()`, `toByte()`, ...):
same band names, masked pixels stay masked, the result carries no properties. -/
def Image.mapPixels (f : V → W) (img : Image Px V) : Image Px W :=
  { bands := img.bands.map (fun b => (b.1, fun p => (b.2 p).map f))
    time_start := none
    instrumentMode := none
    transmitterReceiverPolarisation := [] }

/-- A per-pixel operation whose left operand is the one-band constant image `ee.Image(c)`:
the bands are named after the operand with more bands, the left one on a tie. -/
def Image.constLeft (f : V → W) (img : Image Px V) : Image Px W :=
  { bands := img.bands.map
      (fun b => (if img.bands.length ≤ 1 then "constant" else b.1, fun p => (b.2 p).map f))
    time_start := none
    instrumentMode := none
    transmitterReceiverPolarisation := [] }

/-- The call `dst.copyProperties(src, ['system:time_start'])`. -/
def copyProperties {U : Type} (dst : Image Px V) (src : Image Px U) : Image Px V :=
  { dst with time_start := match src.time_start with
      | some t => some t
      | none => dst.time_start }

/-- The call `img.select(0)`: the first band; an error on an image without bands. -/
def Image.select0 (img : Image Px V) : Option (Image Px V) :=
  match img.bands with
  | [] => none
  | b :: _ => some { img with bands := [b] }

/-- The call `img.select(names, newNames)` with literal band names: the named bands in the
order asked for, renamed; an error when a name matches no band. -/
def Image.select (img : Image Px V) (names newNames : List String) : Option (Image Px V) :=
  ((names.zip newNames).mapM
      (fun nn => (img.bands.find? (fun b => b.1 == nn.1)).map (fun b => (nn.2, b.2)))).map
    (fun bs => { img with bands := bs })

/-- The call `img.updateMask(mask)` with a one-band mask: a pixel stays valid where the mask
is itself valid and non-zero; band names and properties are those of `img`. -/
def Image.updateMask (img : Image Px V) (mask : Image Px Nat) : Option (Image Px V) :=
  match mask.bands with
  | [m] => some { img with bands := img.bands.map (fun b =>
      (b.1, fun p => match m.2 p with
        | some (_ + 1) => b.2 p
        | _ => none)) }
  | _ => none

/-- Name given to an added band: the name itself if free, else the first of `name_1`,
`name_2`, ... that is free. -/
def freshName (taken : List String) (name : String) : String :=
  if name ∈ taken then
    match (List.range taken.length).find?
        (fun k => decide ((name ++ "_" ++ toString (k + 1)) ∉ taken)) with
    | some k => name ++ "_" ++ toString (k + 1)
    | none => name ++ "_" ++ toString (taken.length + 1)
  else name

/-- The call `dst.addBands(src)`: the bands of `dst` followed by those of `src`; metadata of
`dst`. -/
def Image.addBands (dst src : Image Px V) : Image Px V :=
  { dst with
    bands := List.foldl (fun acc b => acc ++ [(freshName (List.map Prod.fst acc) b.1, b.2)])
      dst.bands src.bands }

/-- Mean of the values present at one pixel; no-data when there is none. -/
def meanValue [Field V] (vs : List V) : Option V :=
  match vs with
  | [] => none
  | _ :: _ => some (vs.sum / (vs.length : V))

/-- The call `col.mean()`: for every band position of the first image, the per-pixel mean over
the images whose pixel is valid there.  An empty collection gives an image without bands. -/
def mean [Field V] (col : List (Image Px V)) : Image Px V :=
  match col with
  | [] => ⟨[], none, none, []⟩
  | first :: _ =>
    { bands := first.bands.enum.map
        (fun jb => (jb.2.1, fun p => meanValue (col.filterMap
          (fun img => (img.bands.get? jb.1).bind (fun c => c.2 p)))))
      time_start := none
      instrumentMode := none
      transmitterReceiverPolarisation := [] }

/-- The call `col.filterDate(t0, t1)`: the images whose `system:time_start` is in `[t0, t1)`. -/
def filterDate (col : List (Image Px V)) (t0 t1 : Nat) : List (Image Px V) :=
  col.filter (fun img => match img.time_start with
    | some ts => inRange t0 t1 ts
    | none => false)

/-- The call `col.sort('system:time')`.  No image of the catalogue carries a property of that
name (the acquisition time is `system:time_start`), so the key never orders two images. -/
def sort (col : List (Image Px V)) : List (Image Px V) := col

/-! ## Section C of the script: functions -/

/-- The script's `toNatural` at one pixel: dB to linear. -/
def toNaturalPx (E : Engine Px V) [Field V] (x : V) : V := E.pow 10 (x / 10)

/-- The script's `toDB` at one pixel: linear to dB. -/
def toDBPx (E : Engine Px V) [Field V] (x : V) : V := E.log10 x * 10

/-- The script's `toNatural`. -/
def toNatural (E : Engine Px V) [Field V] (img : Image Px V) : Image Px V :=
  copyProperties (img.constLeft (toNaturalPx E)) img

/-- The script's `toDB`. -/
def toDB (E : Engine Px V) [Field V] (img : Image Px V) : Image Px V :=
  copyProperties ((img.mapPixels E.log10).mapPixels (fun x => x * 10)) img

/-- The call `unitScale(low, high)` at one pixel: `[low, high]` goes linearly to `[0, 1]`;
values outside the range are not clamped. -/
def unitScale [LinearOrderedField V] (low high x : V) : V :=
  (x - low) / (high - low)

/-- The byte image that `maskEdge` hands to `connectedComponents`. -/
def edgeBytes (E : Engine Px V) [LinearOrderedField V] (img : Image Px V) :
    Option (Image Px Nat) :=
  (img.select0).map (fun b0 =>
    ((b0.mapPixels (unitScale (-25) 5)).mapPixels (fun x => x * 255)).mapPixels E.toByte)

/-- The script's `maskEdge`. -/
def maskEdge (E : Engine Px V) [LinearOrderedField V] (img : Image Px V) :
    Option (Image Px V) :=
  (edgeBytes E img).bind (fun bytes =>
    let mask := E.connectedComponents bytes (Kernel.rectangle 1 1) 100
    (mask.select0).bind (fun m0 => img.updateMask (m0.mapPixels Int.natAbs)))

/-- The script's `stack`, on requests that may have failed. -/
def stack (i1 i2 : Option (Image Px V)) : Option (Image Px V) :=
  i1.bind (fun a => i2.map (fun b => a.addBands b))

/-! ## Section D of the script: preprocessing and composites -/

/-- The script's `s1`, as a function of the `COPERNICUS/S1_GRD` catalogue. -/
def s1 (catalogue : List (Image Px V)) (start_date end_date : Nat) : List (Image Px V) :=
  sort (filterDate
    (((catalogue.filter (fun img => img.instrumentMode == some "IW")).filter
        (fun img => img.transmitterReceiverPolarisation.contains "VV")).filter
      (fun img => img.transmitterReceiverPolarisation.contains "VH"))
    start_date end_date)

/-- The script's `s1_lin`. -/
def s1_lin (E : Engine Px V) [LinearOrderedField V] (catalogue : List (Image Px V))
    (start_date end_date : Nat) : Option (List (Image Px V)) :=
  ((s1 catalogue start_date end_date).mapM (maskEdge E)).map (List.map (toNatural E))

/-- The new band names the script gives to a composite, from the window's date stamp. -/
def compositeNames (dstamp : String) : List String := ["VV_" ++ dstamp, "VH_" ++ dstamp]

/-- The function mapped over `dates` by the script: the composite of one window. -/
def composite (E : Engine Px V) [LinearOrderedField V] (lin : Option (List (Image Px V)))
    (range : Nat × Nat) : Option (Image Px V) :=
  let t0 := range.1
  let t1 := range.2
  let dstamp := format t0
  lin.bind (fun col =>
    let meanLin := mean (filterDate col t0 t1)
    let meanDB := (meanLin.select ["VV", "VH"] (compositeNames dstamp)).map (toDB E)
    meanDB)

/-- The script's `s1res`. -/
def s1res (E : Engine Px V) [LinearOrderedField V] (catalogue : List (Image Px V))
    (start_date end_date step : Nat) : List (Option (Image Px V)) :=
  (dates start_date end_date step).map (composite E (s1_lin E catalogue start_date end_date))

/-- The script's `s1stack`. -/
def s1stack (E : Engine Px V) [LinearOrderedField V] (catalogue : List (Image Px V))
    (start_date end_date step : Nat) : Option (Image Px V) :=
  let res := s1res E catalogue start_date end_date step
  ((get res 0).bind (fun first => iterate (slice res 1 none) stack first)).map
    (fun img => img.mapPixels E.toFloat)

/-- The configured `start_date`, 2018-01-01. -/
def start_date : Nat := 17532

/-- The configured `end_date`, 2018-07-31. -/
def end_date : Nat := 17743

/-- The configured `step`, in days. -/
def step : Nat := 10

/-! ## Conditions on the engine and on the catalogue -/

/-- The image returned by the engine's `connectedComponents` has at least one band. -/
def Engine.Labelled (E : Engine Px V) : Prop :=
  ∀ img k n, (E.connectedComponents img k n).bands.length ≠ 0

/-- Schema of the catalogue: every scene kept by the script's filters holds the bands `VV`, `VH`
and `angle`, in that order. -/
def DualPol (catalogue : List (Image Px V)) (start_date end_date : Nat) : Prop :=
  ∀ img ∈ s1 catalogue start_date end_date, img.bandNames = ["VV", "VH", "angle"]

/-- The window `w` holds at least one acquisition of `s1`. -/
def Covered (catalogue : List (Image Px V)) (start_date end_date : Nat) (w : Nat × Nat) : Prop :=
  (filterDate (s1 catalogue start_date end_date) w.1 w.2).isEmpty = false

/-! ## The composite as the specification words it -/

/-- Values selected for one pixel `p` of channel number `c` (0 is `VV`, 1 is `VH`) in the
window `w`: the dB values of the acquisitions of `s1` whose timestamp lies in `[w.1, w.2)` and
whose pixel is valid after edge masking. -/
def selectedValues (E : Engine Px V) [LinearOrderedField V] (catalogue : List (Image Px V))
    (start_date end_date : Nat) (w : Nat × Nat) (c : Nat) (p : Px) : List V :=
  (filterDate (s1 catalogue start_date end_date) w.1 w.2).filterMap
    (fun img => (maskEdge E img).bind (fun m => (m.bands.get? c).bind (fun b => b.2 p)))

/-- The composite value the specification describes: `10 * log10` of the arithmetic mean of
`10 ^ (v / 10)` over the selected dB values `v`; no-data when nothing is selected. -/
def specComposite (E : Engine Px V) [LinearOrderedField V] (selected : List V) : Option V :=
  match selected with
  | [] => none
  | _ :: _ =>
    some (E.log10 ((selected.map (fun v => E.pow 10 (v / 10))).sum / (selected.length : V)) * 10)

/-! ## Sections A, B and E of the script: parcels -/

/-- A property value of a feature. -/
inductive PropValue where
  | num (n : Int)
  | str (s : String)
  | null
deriving DecidableEq, Repr

/-- An `ee.Feature`: a geometry and named properties. -/
structure Feature (G : Type) where
  geometry : G
  properties : List (String × PropValue)

/-- Geometry operations that the engine supplies: rectangles from corner coordinates, the merged
geometry of a collection, and the intersection test with its optional error margin. -/
structure Geo (G : Type) where
  rectangle : Rat → Rat → Rat → Rat → G
  union : List G → G
  intersects : G → G → Option Nat → Bool

variable {G : Type}

/-- The call `f.get(name)`; `null` when the property is absent. -/
def Feature.get (f : Feature G) (name : String) : PropValue :=
  match f.properties.find? (fun kv => kv.1 == name) with
  | some kv => kv.2
  | none => PropValue.null

/-- Sets one property, replacing an earlier value of the same name. -/
def Feature.set1 (f : Feature G) (name : String) (v : PropValue) : Feature G :=
  { f with properties := f.properties.filter (fun kv => !(kv.1 == name)) ++ [(name, v)] }

/-- The call `f.set(dict)`. -/
def Feature.set (f : Feature G) (dict : List (String × PropValue)) : Feature G :=
  dict.foldl (fun g kv => g.set1 kv.1 kv.2) f

/-- The call `f.select(names)`: the geometry and only the named properties. -/
def Feature.select (f : Feature G) (names : List String) : Feature G :=
  { f with properties := f.properties.filter (fun kv => names.contains kv.1) }

/-- The rectangles `EU_NW1` to `EU_NE2` of stratum 1, with the labels used for the exports. -/
def stratum1Rectangles (geo : Geo G) : List (String × G) :=
  [ ("EU_NW1",  geo.rectangle (-13.69) 48.00 0.00 70.1),
    ("EU_NW2a", geo.rectangle 0.00 48.00 13.00 50.0),
    ("EU_NW2b", geo.rectangle 0.00 50.00 13.00 70.1),
    ("EU_NE1a", geo.rectangle 13.00 48.00 23.50 51.0),
    ("EU_NE1b", geo.rectangle 13.00 51.00 23.50 56.0),
    ("EU_NE1c", geo.rectangle 13.00 56.00 23.50 60.0),
    ("EU_NE1d", geo.rectangle 13.00 60.00 23.50 70.1),
    ("EU_NE2",  geo.rectangle 23.50 48.00 34.70 70.1) ]

/-- The Mediterranean rectangles `EU_SW1`, `EU_SW2`, `EU_SE1`, `EU_SE2`. -/
def mediterraneanRectangles (geo : Geo G) : List G :=
  [ geo.rectangle (-13.69) 32.63 0.00 48.0,
    geo.rectangle 0.00 35.50 13.00 48.0,
    geo.rectangle 13.00 32.63 23.50 48.0,
    geo.rectangle 23.50 32.63 34.70 48.0 ]

/-- The script's `medGeom`. -/
def medGeom (geo : Geo G) : G := geo.union (mediterraneanRectangles geo)

/-- First `parcel.map` of the script: normalised field names. -/
def normalise (f : Feature G) : Feature G :=
  (f.set [("POINT_ID", f.get "point_id"), ("LC1", f.get "lc1"), ("LU1", f.get "lu1")]).select
    ["POINT_ID", "LC1", "LU1"]

/-- Second `parcel.map` of the script: the stratum tag. -/
def tagStratum (geo : Geo G) (f : Feature G) : Feature G :=
  let s : Int := if geo.intersects f.geometry (medGeom geo) (some 1) then 2 else 1
  f.set [("stratum", PropValue.num s)]

/-- The script's `parcel` after the filter on stratum 1, as a function of the polygon collection. -/
def parcel (geo : Geo G) (polygons : List (Feature G)) : List (Feature G) :=
  ((polygons.map normalise).map (tagStratum geo)).filter
    (fun f => f.get "stratum" == PropValue.num 1)

/-- The call `fc.filterBounds(geometry)`. -/
def filterBounds (geo : Geo G) (fc : List (Feature G)) (geometry : G) : List (Feature G) :=
  fc.filter (fun f => geo.intersects f.geometry geometry none)

/-- The arguments of the eight `sampleAndExport` calls: region label and parcel subset. -/
def exportedSubsets (geo : Geo G) (polygons : List (Feature G)) :
    List (String × List (Feature G)) :=
  (stratum1Rectangles geo).map (fun r => (r.1, filterBounds geo (parcel geo polygons) r.2))

/-! ## A one-pixel catalogue for examples -/

/-- A dual-polarisation `IW` scene acquired at `ts`, with one pixel: -10 dB in `VV`, -20 dB in
`VH`, incidence angle 38. -/
def sampleScene (ts : Nat) : Image Unit Rat :=
  { bands := [("VV", fun _ => some (-10)), ("VH", fun _ => some (-20)),
      ("angle", fun _ => some 38)]
    time_start := some ts
    instrumentMode := some "IW"
    transmitterReceiverPolarisation := ["VV", "VH"] }

/-- One scene at the first instant of every window of the range. -/
def sampleCatalogue (start_date end_date step : Nat) : List (Image Unit Rat) :=
  (dates start_date end_date step).map (fun w => sampleScene (millis w.1))

/-- An engine on rational pixel values and one-pixel images: powers with the exponent rounded
down, logarithms rounded down (both exact on the whole powers of ten), bytes by truncation, and
connected components that keep the input band and add a band `labels` holding the single
object. -/
def sampleEngine : Engine Unit Rat :=
  { pow := fun a b => a ^ (Rat.floor b)
    log10 := fun x => ((Nat.log 10 (Rat.floor x).toNat : Nat) : Rat)
    toByte := fun x => min 255 (Rat.floor x).toNat
    toFloat := fun x => x
    connectedComponents := fun img _ _ =>
      { bands := img.bands.map (fun b => (b.1, fun p => (b.2 p).map Int.ofNat))
          ++ [("labels", fun _ => some 1)]
        time_start := none
        instrumentMode := none
        transmitterReceiverPolarisation := [] } }

/-! ## The edge mask -/

/-- The mask raster that `maskEdge` hands to `updateMask`: band 0 of the connected-components
image, in absolute value. -/
def edgeMask (E : Engine Px V) [LinearOrderedField V] (img : Image Px V) :
    Option (Raster Px Nat) :=
  (edgeBytes E img).bind (fun bytes =>
    match (E.connectedComponents bytes (Kernel.rectangle 1 1) 100).bands with
    | [] => none
    | m :: _ => some (fun p => (m.2 p).map Int.natAbs))

/-- A raster under a mask: a pixel stays as it is where the mask is valid and non-zero, and is
no-data elsewhere. -/
def masked (mask : Raster Px Nat) (r : Raster Px V) : Raster Px V :=
  fun p => match mask p with
    | some (_ + 1) => r p
    | _ => none

/-- The byte that `maskEdge` computes from a value of channel 0. -/
def edgeByte (E : Engine Px V) [LinearOrderedField V] (x : V) : Nat :=
  E.toByte (unitScale (-25) 5 x * 255)

/-- What the engine's `connectedComponents` is documented to return: a copy of the input image
with a band `labels` added, in which the pixels of objects larger than the cutoff are masked.
So the first band of the result holds, at every pixel, the input value or no-data; and a
pixel whose value no other pixel has is an object of one pixel, never above a cutoff of at
least 1, and keeps its value. -/
def Engine.ComponentsCopy (E : Engine Px V) : Prop :=
  ∀ (bytes : Image Px Nat) (b : String × Raster Px Nat) (bs : List (String × Raster Px Nat))
    (k : Kernel) (n : Nat), bytes.bands = b :: bs →
    ∃ m ms, (E.connectedComponents bytes k n).bands = m :: ms
      ∧ (∀ p v, m.2 p = some v → ∃ u : Nat, b.2 p = some u ∧ v = (u : Int))
      ∧ (1 ≤ n → ∀ p u, b.2 p = some u → (∀ q, q ≠ p → b.2 q ≠ some u) →
          m.2 p = some (u : Int))

/-- An image on the integer grid with one uniform region and one outlier pixel `p0`: channel
`VV` holds `outlier` at `p0` and `region` at every other pixel, channel `VH` holds the same
values lowered by 6 dB, and `angle` is 38 everywhere. -/
def outlierImage (region outlier : Rat) (p0 : Int × Int) : Image (Int × Int) Rat :=
  { bands := [("VV", fun p => some (if p = p0 then outlier else region)),
      ("VH", fun p => some (if p = p0 then outlier - 6 else region - 6)),
      ("angle", fun _ => some 38)]
    time_start := some 0
    instrumentMode := some "IW"
    transmitterReceiverPolarisation := ["VV", "VH"] }

/-- What the specification expects of `maskEdge` on `outlierImage region outlier p0`: in every
channel the outlier pixel becomes no-data and every pixel of the region stays valid. -/
def MasksOutlier (E : Engine (Int × Int) Rat) (region outlier : Rat) (p0 : Int × Int) : Prop :=
  ∃ out, maskEdge E (outlierImage region outlier p0) = some out
    ∧ ∀ b ∈ out.bands, b.2 p0 = none ∧ ∀ p, p ≠ p0 → (b.2 p).isSome = true

/-- An engine on the integer grid with rational pixel values: powers and logarithms with the
exponent and the result rounded down, bytes by truncation with saturation to 0..255, and
connected components that copy the input bands, mask nothing and add a constant band
`labels`. -/
def copyEngine : Engine (Int × Int) Rat :=
  { pow := fun a b => a ^ (Rat.floor b)
    log10 := fun x => ((Nat.log 10 (Rat.floor x).toNat : Nat) : Rat)
    toByte := fun x => min 255 (Rat.floor x).toNat
    toFloat := fun x => x
    connectedComponents := fun img _ _ =>
      { bands := img.bands.map (fun b => (b.1, fun p => (b.2 p).map Int.ofNat))
          ++ [("labels", fun _ => some 1)]
        time_start := none
        instrumentMode := none
        transmitterReceiverPolarisation := [] } }

/-! ## Facts about the windows -/

theorem days_eq (s e k : Nat) (h : s ≤ e) :
    days s e k = (List.range ((e - s) / k + 1)).map (fun i => s + i * k) := by
  unfold days sequence difference advance
  have h1 : ¬ ((e : Int) - (s : Int) < 0) := by omega
  have h2 : ((e : Int) - (s : Int) - 0).toNat = e - s := by omega
  rw [if_neg h1, h2, List.map_map]
  apply List.map_congr_left
  intro i _
  simp only [Function.comp]
  omega

theorem slice_init {α : Type} (l : List α) : slice l 0 (some (-1)) = l.take (l.length - 1) := by
  unfold slice sliceIndex
  have h1 : ((l.length : Int) + (-1)).toNat = l.length - 1 := by omega
  simp [h1]

theorem slice_rest {α : Type} (l : List α) : slice l 1 none = l.drop 1 := by
  unfold slice sliceIndex
  cases l <;> simp

/-- Closed form of `dates`: window `i` is `[s + i k, s + (i + 1) k)`, for `i < (e - s) / k`. -/
theorem dates_eq (s e k : Nat) (h : s ≤ e) :
    dates s e k = (List.range ((e - s) / k)).map (fun i => (s + i * k, s + (i + 1) * k)) := by
  unfold dates
  rw [slice_init, slice_rest, days_eq s e k h]
  apply List.ext_getElem
  · simp
  · intro i h1 h2
    simp

theorem dates_length (s e k : Nat) (h : s ≤ e) : (dates s e k).length = (e - s) / k := by
  rw [dates_eq s e k h]; simp

theorem dates_get? (s e k : Nat) (h : s ≤ e) (i : Nat) :
    (dates s e k).get? i
      = if i < (e - s) / k then some (s + i * k, s + (i + 1) * k) else none := by
  rw [dates_eq s e k h]
  by_cases hi : i < (e - s) / k
  · simp [hi, List.getElem?_range]
  · simp [hi]
    omega

theorem mem_dates (s e k : Nat) (h : s ≤ e) (w : Nat × Nat) :
    w ∈ dates s e k ↔ ∃ i, i < (e - s) / k ∧ w = (s + i * k, s + (i + 1) * k) := by
  rw [dates_eq s e k h]
  simp only [List.mem_map, List.mem_range]
  constructor
  · rintro ⟨i, hi, rfl⟩; exact ⟨i, hi, rfl⟩
  · rintro ⟨i, hi, rfl⟩; exact ⟨i, hi, rfl⟩

theorem inRange_iff (t0 t1 ts : Nat) :
    inRange t0 t1 ts = true ↔ t0 * msPerDay ≤ ts ∧ ts < t1 * msPerDay := by
  simp [inRange, millis]

/-- A timestamp lies in window number `ts / msPerDay - s` over `k`, when it lies in any. -/
theorem inRange_window (s k i ts : Nat) (hk : 0 < k)
    (h : inRange (s + i * k) (s + (i + 1) * k) ts = true) : i = (ts / msPerDay - s) / k := by
  rw [inRange_iff] at h
  obtain ⟨h1, h2⟩ := h
  have hd : 0 < msPerDay := by decide
  have a1 : s + i * k ≤ ts / msPerDay := (Nat.le_div_iff_mul_le hd).mpr h1
  have a2 : ts / msPerDay < s + (i + 1) * k := (Nat.div_lt_iff_lt_mul hd).mpr h2
  have b1 : i * k ≤ ts / msPerDay - s := by omega
  have b2 : ts / msPerDay - s < (i + 1) * k := by omega
  have c1 : i ≤ (ts / msPerDay - s) / k := (Nat.le_div_iff_mul_le hk).mpr b1
  have c2 : (ts / msPerDay - s) / k < i + 1 := (Nat.div_lt_iff_lt_mul hk).mpr b2
  omega

/-! ## Facts about dates and date stamps -/

theorem yearLength_pos (y : Nat) : 0 < yearLength y := by
  unfold yearLength; split <;> decide

theorem splitYear_year_ge (f y n : Nat) : y ≤ (splitYear f y n).1 := by
  induction f generalizing y n with
  | zero => simp [splitYear]
  | succ f ih =>
    unfold splitYear
    split
    · exact Nat.le_refl y
    · exact Nat.le_trans (Nat.le_succ y) (ih (y + 1) _)

theorem splitYear_offset_lt (f y n : Nat) (h : n ≤ f) :
    (splitYear f y n).2 < yearLength (splitYear f y n).1 := by
  induction f generalizing y n with
  | zero =>
    have : n = 0 := by omega
    subst this
    simpa [splitYear] using yearLength_pos y
  | succ f ih =>
    unfold splitYear
    split
    · assumption
    · have := yearLength_pos y
      exact ih (y + 1) _ (by omega)

theorem splitYear_inj (f g y a b : Nat) (ha : a ≤ f) (hb : b ≤ g)
    (h : splitYear f y a = splitYear g y b) : a = b := by
  induction f generalizing g y a b with
  | zero =>
    have ha0 : a = 0 := by omega
    subst ha0
    cases g with
    | zero => omega
    | succ g =>
      simp only [splitYear] at h
      split at h
      · simpa using congrArg Prod.snd h
      · have h1 := splitYear_year_ge g (y + 1) (b - yearLength y)
        have h2 := congrArg Prod.fst h
        simp only at h2
        omega
  | succ f ih =>
    have hp := yearLength_pos y
    cases g with
    | zero =>
      have hb0 : b = 0 := by omega
      subst hb0
      simp only [splitYear] at h
      split at h
      · simpa using congrArg Prod.snd h
      · have h1 := splitYear_year_ge f (y + 1) (a - yearLength y)
        have h2 := congrArg Prod.fst h
        simp only at h2
        omega
    | succ g =>
      simp only [splitYear] at h
      split at h <;> split at h
      · simpa using congrArg Prod.snd h
      · have h1 := splitYear_year_ge g (y + 1) (b - yearLength y)
        have h2 := congrArg Prod.fst h
        simp only at h2
        omega
      · have h1 := splitYear_year_ge f (y + 1) (a - yearLength y)
        have h2 := congrArg Prod.fst h
        simp only at h2
        omega
      · have := ih g (y + 1) (a - yearLength y) (b - yearLength y) (by omega) (by omega) h
        omega

theorem splitMonth_month_ge (f y m n : Nat) : m ≤ (splitMonth f y m n).1 := by
  induction f generalizing m n with
  | zero => simp [splitMonth]
  | succ f ih =>
    unfold splitMonth
    split
    · exact Nat.le_refl m
    · exact Nat.le_trans (Nat.le_succ m) (ih (m + 1) _)

theorem splitMonth_month_le (f y m n : Nat) : (splitMonth f y m n).1 ≤ m + f := by
  induction f generalizing m n with
  | zero => simp [splitMonth]
  | succ f ih =>
    unfold splitMonth
    split
    · simp
    · have := ih (m + 1) (n - monthLength y m)
      omega

theorem splitMonth_inj (f y m a b : Nat) (h : splitMonth f y m a = splitMonth f y m b) :
    a = b := by
  induction f generalizing m a b with
  | zero => simpa [splitMonth] using h
  | succ f ih =>
    simp only [splitMonth] at h
    split at h <;> split at h
    · simpa using congrArg Prod.snd h
    · have h1 := splitMonth_month_ge f y (m + 1) (b - monthLength y m)
      have h2 := congrArg Prod.fst h
      simp only at h2
      omega
    · have h1 := splitMonth_month_ge f y (m + 1) (a - monthLength y m)
      have h2 := congrArg Prod.fst h
      simp only at h2
      omega
    · have := ih (m + 1) (a - monthLength y m) (b - monthLength y m) h
      omega

theorem monthLength_le (y m : Nat) : monthLength y m ≤ 31 := by
  unfold monthLength
  split_ifs <;> omega

theorem daysFrom_year (y : Nat) : daysFrom y 1 11 = yearLength y := by
  cases hl : isLeapYear y <;> simp [daysFrom, monthLength, yearLength, hl]

theorem splitMonth_day_lt_aux (f y m n : Nat) (h : n < daysFrom y m f) :
    (splitMonth f y m n).2 < 31 := by
  induction f generalizing m n with
  | zero =>
    have := monthLength_le y m
    simp only [daysFrom] at h
    simp only [splitMonth]
    omega
  | succ f ih =>
    have := monthLength_le y m
    simp only [daysFrom] at h
    simp only [splitMonth]
    split
    · simp only; omega
    · exact ih (m + 1) _ (by omega)

theorem splitMonth_day_lt (y n : Nat) (h : n < yearLength y) : (splitMonth 11 y 1 n).2 < 31 :=
  splitMonth_day_lt_aux 11 y 1 n (by rw [daysFrom_year]; exact h)

theorem civil_inj (a b : Nat) (h : civil a = civil b) : a = b := by
  unfold civil at h
  simp only [Civil.mk.injEq] at h
  obtain ⟨hy, hm, hd⟩ := h
  have hpair : splitMonth 11 (splitYear a 1970 a).1 1 (splitYear a 1970 a).2
      = splitMonth 11 (splitYear a 1970 a).1 1 (splitYear b 1970 b).2 := by
    rw [Prod.ext_iff]
    refine ⟨?_, ?_⟩
    · rw [hm, hy]
    · have hd2 := Nat.add_right_cancel hd
      rw [hd2, hy]
  have hoff := splitMonth_inj 11 _ 1 _ _ hpair
  exact splitYear_inj a b 1970 a b (Nat.le_refl a) (Nat.le_refl b) (Prod.ext hy hoff)

theorem civil_month_lt (t : Nat) : (civil t).month < 100 := by
  have := splitMonth_month_le 11 (splitYear t 1970 t).1 1 (splitYear t 1970 t).2
  simp only [civil]
  omega

theorem civil_day_lt (t : Nat) : (civil t).day < 100 := by
  have := splitMonth_day_lt (splitYear t 1970 t).1 (splitYear t 1970 t).2
    (splitYear_offset_lt t 1970 t (Nat.le_refl t))
  simp only [civil]
  omega

theorem digitsLE_lt (f n d : Nat) (h : d ∈ digitsLE f n) : d < 10 := by
  induction f generalizing n with
  | zero => simp [digitsLE] at h
  | succ f ih =>
    unfold digitsLE at h
    split at h
    · simp at h; omega
    · simp only [List.mem_cons] at h
      rcases h with h | h
      · omega
      · exact ih _ h

theorem digitsLE_value (f n : Nat) (h : n < f) :
    (digitsLE f n).foldr (fun d acc => d + 10 * acc) 0 = n := by
  induction f generalizing n with
  | zero => omega
  | succ f ih =>
    unfold digitsLE
    split
    · simp
    · simp only [List.foldr_cons]
      rw [ih (n / 10) (by omega)]
      omega

theorem foldr_zeros (l : List Nat) (z : Nat) :
    (l ++ List.replicate z 0).foldr (fun d acc => d + 10 * acc) 0
      = l.foldr (fun d acc => d + 10 * acc) 0 := by
  have hz : ∀ z : Nat, (List.replicate z 0).foldr (fun d acc => d + 10 * acc) 0 = 0 := by
    intro z
    induction z with
    | zero => rfl
    | succ z ih => simp [List.replicate_succ, ih]
  rw [List.foldr_append, hz]

theorem digitChar_inj (a b : Nat) (ha : a < 10) (hb : b < 10)
    (h : digitChar a = digitChar b) : a = b := by
  have h2 := congrArg Char.toNat h
  interval_cases a <;> interval_cases b <;> first | rfl | (exact absurd h2 (by decide))

theorem map_digitChar_inj (l1 l2 : List Nat) (h1 : ∀ d ∈ l1, d < 10) (h2 : ∀ d ∈ l2, d < 10)
    (h : l1.map digitChar = l2.map digitChar) : l1 = l2 := by
  induction l1 generalizing l2 with
  | nil =>
    cases l2 with
    | nil => rfl
    | cons b l2 => simp at h
  | cons a l1 ih =>
    cases l2 with
    | nil => simp at h
    | cons b l2 =>
      simp only [List.map_cons, List.cons.injEq] at h
      have hab := digitChar_inj a b (h1 a (by simp)) (h2 b (by simp)) h.1
      have := ih l2 (fun d hd => h1 d (by simp [hd])) (fun d hd => h2 d (by simp [hd])) h.2
      rw [hab, this]

theorem fmtNat_inj (w a b : Nat) (h : fmtNat w a = fmtNat w b) : a = b := by
  unfold fmtNat at h
  have hlt : ∀ n : Nat, ∀ d ∈ List.replicate (w - (digitsLE (n + 1) n).reverse.length) 0
      ++ (digitsLE (n + 1) n).reverse, d < 10 := by
    intro n d hd
    rw [List.mem_append] at hd
    rcases hd with hd | hd
    · rw [List.mem_replicate] at hd; omega
    · exact digitsLE_lt _ _ d (List.mem_reverse.mp hd)
  have hl := map_digitChar_inj _ _ (hlt a) (hlt b) h
  have hv : ∀ n : Nat, (List.replicate (w - (digitsLE (n + 1) n).reverse.length) 0
      ++ (digitsLE (n + 1) n).reverse).reverse.foldr (fun d acc => d + 10 * acc) 0 = n := by
    intro n
    rw [List.reverse_append, List.reverse_reverse, List.reverse_replicate, foldr_zeros]
    exact digitsLE_value (n + 1) n (Nat.lt_succ_self n)
  have := congrArg (fun l : List Nat => l.reverse.foldr (fun d acc => d + 10 * acc) 0) hl
  simp only [hv] at this
  exact this

theorem fmtNat_two_length (n : Nat) (h : n < 100) : (fmtNat 2 n).length = 2 := by
  unfold fmtNat
  by_cases h10 : n < 10
  · simp [digitsLE, h10]
  · obtain ⟨m, rfl⟩ : ∃ m, n = m + 1 := ⟨n - 1, by omega⟩
    have h2 : (m + 1) / 10 < 10 := by omega
    simp [digitsLE, h10, h2]

theorem format_inj (a b : Nat) (h : format a = format b) : a = b := by
  unfold format at h
  have hdata := congrArg String.data h
  simp only at hdata
  have hd := List.append_inj' hdata
    (by rw [fmtNat_two_length _ (civil_day_lt a), fmtNat_two_length _ (civil_day_lt b)])
  have hm := List.append_inj' hd.1
    (by rw [fmtNat_two_length _ (civil_month_lt a), fmtNat_two_length _ (civil_month_lt b)])
  apply civil_inj
  have e1 := fmtNat_inj 4 _ _ hm.1
  have e2 := fmtNat_inj 2 _ _ hm.2
  have e3 := fmtNat_inj 2 _ _ hd.2
  cases hca : civil a
  cases hcb : civil b
  simp only [hca, hcb] at e1 e2 e3
  simp [e1, e2, e3]

/-! ## Facts about band names -/

theorem vv_append_inj (a b : String) (h : "VV_" ++ a = "VV_" ++ b) : a = b := by
  have h2 := congrArg String.data h
  simp only [String.data_append] at h2
  exact String.ext (List.append_cancel_left h2)

theorem vh_append_inj (a b : String) (h : "VH_" ++ a = "VH_" ++ b) : a = b := by
  have h2 := congrArg String.data h
  simp only [String.data_append] at h2
  exact String.ext (List.append_cancel_left h2)

theorem vv_ne_vh (a b : String) : "VV_" ++ a ≠ "VH_" ++ b := by
  intro h
  have h2 := congrArg String.data h
  simp only [String.data_append] at h2
  have h3 : ("VV_".data ++ a.data).get? 1 = ("VH_".data ++ b.data).get? 1 := by rw [h2]
  simp at h3

/-- The names of the composites of windows with pairwise different starts are pairwise
different. -/
theorem compositeNames_nodup (starts : List Nat) (h : starts.Nodup) :
    (starts.map (fun t => compositeNames (format t))).flatten.Nodup := by
  induction starts with
  | nil => simp
  | cons t ts ih =>
    rw [List.nodup_cons] at h
    simp only [List.map_cons, List.flatten_cons]
    rw [List.nodup_append]
    refine ⟨?_, ih h.2, ?_⟩
    · simp only [compositeNames, List.nodup_cons, List.mem_singleton, List.not_mem_nil,
        not_false_eq_true, List.nodup_nil, and_true]
      exact vv_ne_vh _ _
    · intro x hx hy
      rw [List.mem_flatten] at hy
      obtain ⟨l, hl, hxl⟩ := hy
      rw [List.mem_map] at hl
      obtain ⟨u, hu, rfl⟩ := hl
      have hne : t ≠ u := fun e => h.1 (e ▸ hu)
      simp only [compositeNames, List.mem_cons, List.mem_singleton, List.not_mem_nil,
        or_false] at hx hxl
      rcases hx with rfl | rfl <;> rcases hxl with h2 | h2
      · exact hne (format_inj _ _ (vv_append_inj _ _ h2))
      · exact vv_ne_vh _ _ h2
      · exact vv_ne_vh _ _ h2.symm
      · exact hne (format_inj _ _ (vh_append_inj _ _ h2))

theorem dates_starts_nodup (s e k : Nat) (hk : 0 < k) (h : s ≤ e) :
    ((dates s e k).map Prod.fst).Nodup := by
  rw [dates_eq s e k h, List.map_map]
  refine (List.nodup_map_iff_inj_on (List.nodup_range _)).mpr ?_
  intro a _ b _ hab
  simp only [Function.comp] at hab
  have : a * k = b * k := by omega
  exact Nat.eq_of_mul_eq_mul_right hk this

theorem freshName_free (taken : List String) (name : String) (h : name ∉ taken) :
    freshName taken name = name := by
  unfold freshName
  rw [if_neg h]

theorem addBands_fold_names {Px V : Type} (src acc : List (String × Raster Px V))
    (h : (acc.map Prod.fst ++ src.map Prod.fst).Nodup) :
    (List.foldl (fun a b => a ++ [(freshName (List.map Prod.fst a) b.1, b.2)]) acc src).map
        Prod.fst
      = acc.map Prod.fst ++ src.map Prod.fst := by
  induction src generalizing acc with
  | nil => simp
  | cons b src ih =>
    simp only [List.foldl_cons, List.map_cons]
    have hb : b.1 ∉ acc.map Prod.fst := by
      intro hmem
      rw [List.nodup_append] at h
      exact h.2.2 hmem (by simp)
    rw [freshName_free _ _ hb]
    have h2 : ((acc ++ [(b.1, b.2)]).map Prod.fst ++ src.map Prod.fst).Nodup := by
      simpa [List.append_assoc] using h
    rw [ih _ h2]
    simp

/-- Without a name clash, `addBands` puts the band names of `src` after those of `dst`. -/
theorem addBands_names {Px V : Type} (dst src : Image Px V)
    (h : (dst.bandNames ++ src.bandNames).Nodup) :
    (dst.addBands src).bandNames = dst.bandNames ++ src.bandNames := by
  unfold Image.addBands Image.bandNames
  exact addBands_fold_names src.bands dst.bands h

theorem mapPixels_names {Px V W : Type} (f : V → W) (img : Image Px V) :
    (img.mapPixels f).bandNames = img.bandNames := by
  simp [Image.mapPixels, Image.bandNames, Function.comp]

/-- Folding `stack` over composites with pairwise different band names: the bands of the last
composite come first, those of the seed last. -/
theorem iterate_stack_names {Px V : Type} (xs : List (Image Px V)) (first : Image Px V)
    (h : ((xs.map Image.bandNames).flatten ++ first.bandNames).Nodup) :
    ∃ r, iterate (xs.map some) stack (some first) = some r
      ∧ r.bandNames = (xs.reverse.map Image.bandNames).flatten ++ first.bandNames := by
  induction xs generalizing first with
  | nil => exact ⟨first, rfl, by simp⟩
  | cons x xs ih =>
    have hx : (x.bandNames ++ first.bandNames).Nodup := by
      simp only [List.map_cons, List.flatten_cons, List.append_assoc] at h
      rw [List.nodup_append] at h ⊢
      obtain ⟨h1, h2, h3⟩ := h
      rw [List.nodup_append] at h2
      refine ⟨h1, h2.2.1, ?_⟩
      intro a ha hb
      exact h3 ha (by simp [hb])
    have hn := addBands_names x first hx
    have h2 : ((xs.map Image.bandNames).flatten ++ (x.addBands first).bandNames).Nodup := by
      rw [hn]
      simp only [List.map_cons, List.flatten_cons, List.append_assoc] at h
      have hp : (x.bandNames ++ ((xs.map Image.bandNames).flatten ++ first.bandNames)).Perm
          ((xs.map Image.bandNames).flatten ++ (x.bandNames ++ first.bandNames)) := by
        rw [← List.append_assoc, ← List.append_assoc]
        exact List.Perm.append_right _ List.perm_append_comm
      exact hp.nodup_iff.mp h
    obtain ⟨r, hr, hrn⟩ := ih (x.addBands first) h2
    refine ⟨r, ?_, ?_⟩
    · simp only [iterate, List.map_cons, List.foldl_cons] at hr ⊢
      simpa [stack] using hr
    · rw [hrn, hn]
      simp [List.append_assoc]

theorem compositeNames_flatten_length (l : List (Nat × Nat)) :
    ((l.map (fun w => compositeNames (format w.1))).flatten).length = l.length * 2 := by
  induction l with
  | nil => rfl
  | cons w l ih =>
    simp only [List.map_cons, List.flatten_cons, List.length_append, ih, List.length_cons]
    simp [compositeNames]
    omega

/-! ## Facts about the composites -/

/-- The mask raster applied by `maskEdge`: band 0 of the connected-components image, in
absolute value. -/
theorem maskEdge_some [LinearOrderedField V] (E : Engine Px V) (hE : E.Labelled) (x : Image Px V)
    (hx : x.bands.length ≠ 0) :
    ∃ m, maskEdge E x = some m ∧ m.time_start = x.time_start
      ∧ m.bandNames = x.bandNames := by
  obtain ⟨bands, ts, im, pol⟩ := x
  cases bands with
  | nil => simp at hx
  | cons b bs =>
    simp only [maskEdge, edgeBytes, Image.select0, Option.map_some', Option.some_bind]
    have hl := hE (Image.mapPixels E.toByte (Image.mapPixels (fun x => x * 255)
      (Image.mapPixels (unitScale (-25) 5) ⟨[b], ts, im, pol⟩))) (Kernel.rectangle 1 1) 100
    generalize E.connectedComponents _ _ _ = cc at hl ⊢
    obtain ⟨cbands, cts, cim, cpol⟩ := cc
    cases cbands with
    | nil => simp at hl
    | cons c cs =>
      simp only [Option.some_bind, Image.mapPixels, List.map_cons, List.map_nil,
        Image.updateMask]
      refine ⟨_, rfl, rfl, ?_⟩
      simp [Image.bandNames, Function.comp]

theorem maskEdge_time [LinearOrderedField V] (E : Engine Px V) (x m : Image Px V) (h : maskEdge E x = some m) :
    m.time_start = x.time_start := by
  unfold maskEdge at h
  simp only [Option.bind_eq_some] at h
  obtain ⟨bytes, _, m0, _, h3⟩ := h
  unfold Image.updateMask at h3
  split at h3
  · cases h3; rfl
  · cases h3

theorem toNatural_time [Field V] (E : Engine Px V) (m : Image Px V) :
    (toNatural E m).time_start = m.time_start := by
  unfold toNatural copyProperties Image.constLeft
  cases m.time_start <;> rfl

/-- Masking and linearising keep the acquisition time. -/
theorem lin_time [LinearOrderedField V] (E : Engine Px V) (x : Image Px V) :
    (toNatural E ((maskEdge E x).getD x)).time_start = x.time_start := by
  rw [toNatural_time]
  cases h : maskEdge E x with
  | none => rfl
  | some m => exact maskEdge_time E x m h

theorem mapM_total {α β : Type} (f : α → Option β) (g : α → β) (l : List α)
    (h : ∀ x ∈ l, f x = some (g x)) : l.mapM f = some (l.map g) := by
  induction l with
  | nil => rfl
  | cons a l ih =>
    rw [List.mapM_cons, h a (by simp), ih (fun x hx => h x (by simp [hx]))]
    rfl

theorem s1_lin_eq [LinearOrderedField V] (E : Engine Px V) (hE : E.Labelled) (catalogue : List (Image Px V))
    (s e : Nat) (hD : DualPol catalogue s e) :
    s1_lin E catalogue s e
      = some ((s1 catalogue s e).map (fun x => toNatural E ((maskEdge E x).getD x))) := by
  unfold s1_lin
  rw [mapM_total (maskEdge E) (fun x => (maskEdge E x).getD x)]
  · simp [Function.comp]
  · intro x hx
    have hb : x.bands.length ≠ 0 := by
      have := congrArg List.length (hD x hx)
      simp [Image.bandNames] at this
      omega
    obtain ⟨m, hm, _⟩ := maskEdge_some E hE x hb
    simp [hm]

theorem filterDate_map (l : List (Image Px V)) (f : Image Px V → Image Px V)
    (hf : ∀ x, (f x).time_start = x.time_start) (a b : Nat) :
    filterDate (l.map f) a b = (filterDate l a b).map f := by
  unfold filterDate
  rw [List.filter_map]
  congr 1
  apply List.filter_congr
  intro x _
  simp only [Function.comp, hf]

theorem filterDate_subset (l : List (Image Px V)) (a b : Nat) (x : Image Px V)
    (h : x ∈ filterDate l a b) : x ∈ l := by
  unfold filterDate at h
  exact (List.mem_filter.mp h).1

theorem bands_of_names3 {R : Type} (l : List (String × R)) (n0 n1 n2 : String)
    (h : l.map Prod.fst = [n0, n1, n2]) : ∃ a b c, l = [(n0, a), (n1, b), (n2, c)] := by
  match l, h with
  | [(m0, a), (m1, b), (m2, c)], h =>
    simp only [List.map_cons, List.map_nil, List.cons.injEq, and_true] at h
    obtain ⟨rfl, rfl, rfl⟩ := h
    exact ⟨a, b, c, rfl⟩

theorem toNatural_bands3 [Field V] (E : Engine Px V) (m : Image Px V)
    (a b c : String × Raster Px V) (h : m.bands = [a, b, c]) :
    (toNatural E m).bands
      = [(a.1, fun p => (a.2 p).map (toNaturalPx E)), (b.1, fun p => (b.2 p).map (toNaturalPx E)),
          (c.1, fun p => (c.2 p).map (toNaturalPx E))] := by
  simp [toNatural, copyProperties, Image.constLeft, h]

theorem select_vv_vh (img : Image Px V) (r0 r1 r2 : Raster Px V) (n0 n1 : String)
    (h : img.bands = [("VV", r0), ("VH", r1), ("angle", r2)]) :
    (img.select ["VV", "VH"] [n0, n1]).map (fun i => i.bands) = some [(n0, r0), (n1, r1)] := by
  simp only [Image.select, h, List.zip_cons_cons, List.zip_nil_right, List.mapM_cons,
    List.mapM_nil, List.find?]
  rfl

theorem toDB_bands [Field V] (E : Engine Px V) (img : Image Px V) :
    (toDB E img).bands
      = img.bands.map (fun b => (b.1, fun p => (b.2 p).map (toDBPx E))) := by
  simp only [toDB, copyProperties, Image.mapPixels, List.map_map]
  apply List.map_congr_left
  intro b _
  simp only [Function.comp, Option.map_map, Prod.mk.injEq, true_and]
  rfl

theorem lin_value [LinearOrderedField V] (E : Engine Px V) (hE : E.Labelled) (x : Image Px V)
    (hx : x.bandNames = ["VV", "VH", "angle"]) (c : Nat) (p : Px) :
    ((toNatural E ((maskEdge E x).getD x)).bands.get? c).bind (fun b => b.2 p)
      = ((maskEdge E x).bind (fun m => (m.bands.get? c).bind (fun b => b.2 p))).map
          (toNaturalPx E) := by
  have hb : x.bands.length ≠ 0 := by
    have := congrArg List.length hx
    simp [Image.bandNames] at this
    omega
  obtain ⟨m, hm, _, hn⟩ := maskEdge_some E hE x hb
  rw [hx] at hn
  obtain ⟨r0, r1, r2, hbands⟩ := bands_of_names3 m.bands _ _ _ hn
  rw [hm]
  simp only [Option.getD_some, Option.some_bind]
  rw [toNatural_bands3 E m _ _ _ hbands, hbands]
  rcases c with _ | _ | _ | c <;> simp

theorem composite_value [LinearOrderedField V] (E : Engine Px V) (hE : E.Labelled)
    (catalogue : List (Image Px V)) (s e : Nat) (hD : DualPol catalogue s e)
    (w : Nat × Nat) (c : Nat) (p : Px) :
    (meanValue (((filterDate (s1 catalogue s e) w.1 w.2).map
        (fun x => toNatural E ((maskEdge E x).getD x))).filterMap
          (fun img => (img.bands.get? c).bind (fun b => b.2 p)))).map (toDBPx E)
      = specComposite E (selectedValues E catalogue s e w c p) := by
  have hlist : ((filterDate (s1 catalogue s e) w.1 w.2).map
        (fun x => toNatural E ((maskEdge E x).getD x))).filterMap
          (fun img => (img.bands.get? c).bind (fun b => b.2 p))
      = (selectedValues E catalogue s e w c p).map (toNaturalPx E) := by
    unfold selectedValues
    rw [List.filterMap_map, List.map_filterMap]
    apply List.filterMap_congr
    intro x hxm
    have hx := hD x (filterDate_subset _ _ _ x hxm)
    simp only [Function.comp]
    exact lin_value E hE x hx c p
  rw [hlist]
  cases selectedValues E catalogue s e w c p with
  | nil => rfl
  | cons a l =>
    simp only [meanValue, specComposite, toDBPx, List.map_cons, Option.map_some',
      List.length_map, List.length_cons]
    rfl

/-- The composite of a window that holds an acquisition: two bands, named after the window's
start, whose values are those the specification describes. -/
theorem composite_bands [LinearOrderedField V] (E : Engine Px V) (hE : E.Labelled)
    (catalogue : List (Image Px V)) (s e : Nat) (hD : DualPol catalogue s e)
    (w : Nat × Nat) (hw : Covered catalogue s e w) :
    (composite E (s1_lin E catalogue s e) w).map (fun i => i.bands)
      = some [("VV_" ++ format w.1,
                fun p => specComposite E (selectedValues E catalogue s e w 0 p)),
              ("VH_" ++ format w.1,
                fun p => specComposite E (selectedValues E catalogue s e w 1 p))] := by
  rw [s1_lin_eq E hE catalogue s e hD]
  unfold composite
  simp only [Option.some_bind]
  rw [filterDate_map _ _ (lin_time E)]
  have hv0 := fun p => composite_value E hE catalogue s e hD w 0 p
  have hv1 := fun p => composite_value E hE catalogue s e hD w 1 p
  unfold Covered at hw
  have hsub := filterDate_subset (s1 catalogue s e) w.1 w.2
  generalize filterDate (s1 catalogue s e) w.1 w.2 = F at hw hv0 hv1 hsub
  cases F with
  | nil => simp at hw
  | cons x0 rest =>
    have hx := hD x0 (hsub x0 (by simp))
    have hb : x0.bands.length ≠ 0 := by
      have := congrArg List.length hx
      simp [Image.bandNames] at this
      omega
    obtain ⟨m, hm, _, hn⟩ := maskEdge_some E hE x0 hb
    rw [hx] at hn
    obtain ⟨r0, r1, r2, hbands⟩ := bands_of_names3 m.bands _ _ _ hn
    have hfirst := toNatural_bands3 E m _ _ _ hbands
    have hmean : (mean ((x0 :: rest).map (fun x => toNatural E ((maskEdge E x).getD x)))).bands
        = [("VV", fun p => meanValue (((x0 :: rest).map
              (fun x => toNatural E ((maskEdge E x).getD x))).filterMap
                (fun img => (img.bands.get? 0).bind (fun b => b.2 p)))),
            ("VH", fun p => meanValue (((x0 :: rest).map
              (fun x => toNatural E ((maskEdge E x).getD x))).filterMap
                (fun img => (img.bands.get? 1).bind (fun b => b.2 p)))),
            ("angle", fun p => meanValue (((x0 :: rest).map
              (fun x => toNatural E ((maskEdge E x).getD x))).filterMap
                (fun img => (img.bands.get? 2).bind (fun b => b.2 p))))] := by
      simp only [List.map_cons, mean, hm, Option.getD_some, hfirst, List.enum, List.enumFrom]
      rfl
    have hsel := select_vv_vh _ _ _ _ ("VV_" ++ format w.1) ("VH_" ++ format w.1) hmean
    rw [Option.map_map]
    have hfun : ((fun i : Image Px V => i.bands) ∘ toDB E)
        = (fun l => l.map (fun b => (b.1, fun p => (b.2 p).map (toDBPx E))))
            ∘ (fun i : Image Px V => i.bands) := by
      funext i
      exact toDB_bands E i
    rw [hfun, ← Option.map_map]
    unfold compositeNames
    rw [hsel]
    simp only [Option.map_some', List.map_cons, List.map_nil, Option.some.injEq,
      List.cons.injEq, Prod.mk.injEq, true_and, and_true]
    exact ⟨funext hv0, funext hv1⟩

/-! ## Facts about the stack -/

theorem composite_produced [LinearOrderedField V] (E : Engine Px V) (hE : E.Labelled)
    (catalogue : List (Image Px V)) (s e : Nat) (hD : DualPol catalogue s e)
    (w : Nat × Nat) (hw : Covered catalogue s e w) :
    ∃ img, composite E (s1_lin E catalogue s e) w = some img := by
  have h := composite_bands E hE catalogue s e hD w hw
  cases hc : composite E (s1_lin E catalogue s e) w with
  | none => rw [hc] at h; simp at h
  | some img => exact ⟨img, rfl⟩

theorem select_two_names (img r : Image Px V) (a b n0 n1 : String)
    (h : img.select [a, b] [n0, n1] = some r) : r.bandNames = [n0, n1] := by
  simp only [Image.select, List.zip_cons_cons, List.zip_nil_right, List.mapM_cons,
    List.mapM_nil, Option.map_eq_some'] at h
  obtain ⟨bs, hbs, rfl⟩ := h
  cases h0 : img.bands.find? (fun c => c.1 == a) with
  | none => simp [h0] at hbs
  | some c0 =>
    cases h1 : img.bands.find? (fun c => c.1 == b) with
    | none => simp [h0, h1] at hbs
    | some c1 =>
      simp only [h0, h1, Option.map_some', bind, Option.bind, pure, Option.some.injEq] at hbs
      subst hbs
      rfl

/-- A composite that is produced carries exactly the two names made from its window's start. -/
theorem composite_some_names [LinearOrderedField V] (E : Engine Px V)
    (lin : Option (List (Image Px V))) (w : Nat × Nat) (img : Image Px V)
    (h : composite E lin w = some img) : img.bandNames = compositeNames (format w.1) := by
  unfold composite at h
  simp only [Option.bind_eq_some, Option.map_eq_some'] at h
  obtain ⟨col, _, sel, hsel, rfl⟩ := h
  have hn := select_two_names _ sel _ _ _ _ hsel
  have hb := toDB_bands E sel
  unfold compositeNames
  rw [← hn]
  simp [Image.bandNames, hb, Function.comp]

theorem iterate_stack_none (l : List (Option (Image Px V))) : iterate l stack none = none := by
  induction l with
  | nil => rfl
  | cons x l ih =>
    simp only [iterate, List.foldl_cons] at ih ⊢
    have : stack x (none : Option (Image Px V)) = none := by
      cases x <;> rfl
    rw [this]
    exact ih

/-- A fold of `stack` that yields an image met no failed request on its way. -/
theorem iterate_stack_all_some (l : List (Option (Image Px V))) (first : Option (Image Px V))
    (r : Image Px V) (h : iterate l stack first = some r) :
    (∃ f, first = some f) ∧ ∀ x ∈ l, ∃ i, x = some i := by
  induction l generalizing first with
  | nil =>
    simp only [iterate, List.foldl_nil] at h
    exact ⟨⟨r, h⟩, by simp⟩
  | cons x l ih =>
    have h2 : iterate l stack (stack x first) = some r := by
      simpa [iterate] using h
    obtain ⟨⟨f, hf⟩, hall⟩ := ih (stack x first) h2
    cases x with
    | none => simp [stack] at hf
    | some a =>
      cases first with
      | none => simp [stack] at hf
      | some b =>
        refine ⟨⟨b, rfl⟩, ?_⟩
        intro y hy
        rcases List.mem_cons.mp hy with rfl | hy
        · exact ⟨a, rfl⟩
        · exact hall y hy

/-- Band names of `s1stack` when every composite is produced: the names of the last window
first, those of the first window last. -/
theorem s1stack_names_core [LinearOrderedField V] (E : Engine Px V)
    (catalogue : List (Image Px V)) (s e k : Nat) (hk : 0 < k) (hse : s ≤ e)
    (hall : ∀ w ∈ dates s e k, ∃ img, composite E (s1_lin E catalogue s e) w = some img)
    (hne : dates s e k ≠ []) :
    (s1stack E catalogue s e k).map Image.bandNames
      = some (((dates s e k).reverse.map (fun w => compositeNames (format w.1))).flatten) := by
  have hnd := compositeNames_nodup _ (dates_starts_nodup s e k hk hse)
  rw [List.map_map] at hnd
  have hg : ∀ w ∈ dates s e k, composite E (s1_lin E catalogue s e) w
      = some ((composite E (s1_lin E catalogue s e) w).getD ⟨[], none, none, []⟩) := by
    intro w hw
    obtain ⟨img, hi⟩ := hall w hw
    rw [hi]; rfl
  have hgn : ∀ w ∈ dates s e k,
      ((composite E (s1_lin E catalogue s e) w).getD ⟨[], none, none, []⟩).bandNames
        = compositeNames (format w.1) := by
    intro w hw
    obtain ⟨img, hi⟩ := hall w hw
    rw [hi]; exact composite_some_names E _ w img hi
  unfold s1stack s1res
  generalize dates s e k = ds at hnd hg hgn hne
  cases ds with
  | nil => exact absurd rfl hne
  | cons w0 ws =>
    have hres : (w0 :: ws).map (composite E (s1_lin E catalogue s e))
        = some ((composite E (s1_lin E catalogue s e) w0).getD ⟨[], none, none, []⟩)
          :: (ws.map (fun w => (composite E (s1_lin E catalogue s e) w).getD
                ⟨[], none, none, []⟩)).map some := by
      rw [List.map_cons, List.map_map, ← hg w0 (by simp)]
      congr 1
      apply List.map_congr_left
      intro w hw
      exact hg w (by simp [hw])
    simp only [hres, get, slice_rest, List.get?_cons_zero, Option.some_bind, List.drop_succ_cons,
      List.drop_zero]
    have hnames : (ws.map (fun w => (composite E (s1_lin E catalogue s e) w).getD
          ⟨[], none, none, []⟩)).map Image.bandNames
        = ws.map (fun w => compositeNames (format w.1)) := by
      rw [List.map_map]
      apply List.map_congr_left
      intro w hw
      exact hgn w (by simp [hw])
    obtain ⟨r, hr, hrn⟩ := iterate_stack_names
      (ws.map (fun w => (composite E (s1_lin E catalogue s e) w).getD ⟨[], none, none, []⟩))
      ((composite E (s1_lin E catalogue s e) w0).getD ⟨[], none, none, []⟩)
      (by
        rw [hnames, hgn w0 (by simp)]
        simp only [List.map_cons, List.flatten_cons, Function.comp] at hnd
        exact (List.perm_append_comm.nodup_iff).mp hnd)
    have hrn2 : r.bandNames
        = ((w0 :: ws).reverse.map (fun w => compositeNames (format w.1))).flatten := by
      rw [hrn, List.map_reverse, hnames, hgn w0 (by simp)]
      simp [List.map_reverse]
    rw [hr]
    simp only [Option.map_some', mapPixels_names, hrn2]

/-- Without a window the request `s1res.get(0)` fails. -/
theorem s1stack_no_window [LinearOrderedField V] (E : Engine Px V)
    (catalogue : List (Image Px V)) (s e k : Nat) (h : dates s e k = []) :
    s1stack E catalogue s e k = none := by
  simp [s1stack, s1res, h, get]

/-- When `s1stack` is produced, there is a window and every composite was produced. -/
theorem s1stack_some [LinearOrderedField V] (E : Engine Px V)
    (catalogue : List (Image Px V)) (s e k : Nat) (img : Image Px V)
    (h : s1stack E catalogue s e k = some img) :
    dates s e k ≠ []
      ∧ ∀ w ∈ dates s e k, ∃ i, composite E (s1_lin E catalogue s e) w = some i := by
  have hne : dates s e k ≠ [] := by
    intro h0
    rw [s1stack_no_window E catalogue s e k h0] at h
    cases h
  refine ⟨hne, ?_⟩
  unfold s1stack s1res at h
  generalize dates s e k = ds at h hne
  cases ds with
  | nil => exact absurd rfl hne
  | cons w0 ws =>
    simp only [List.map_cons, get, slice_rest, List.get?_cons_zero, Option.some_bind,
      List.drop_succ_cons, List.drop_zero, Option.map_eq_some'] at h
    obtain ⟨r, hr, _⟩ := h
    obtain ⟨⟨f, hf⟩, hrest⟩ := iterate_stack_all_some _ _ r hr
    intro w hw
    rcases List.mem_cons.mp hw with rfl | hw
    · exact ⟨f, hf⟩
    · exact hrest _ (List.mem_map_of_mem _ hw)

/-! ## Acquisitions outside every window -/

theorem s1_filter (catalogue : List (Image Px V)) (s e : Nat) (q : Image Px V → Bool) :
    s1 (catalogue.filter q) s e = (s1 catalogue s e).filter q := by
  simp only [s1, sort, filterDate, List.filter_filter]
  apply List.filter_congr
  intro x _
  cases q x <;> simp

theorem filterDate_filter (l : List (Image Px V)) (q : Image Px V → Bool) (a b : Nat)
    (h : ∀ x ∈ l, ∀ ts, x.time_start = some ts → inRange a b ts = true → q x = true) :
    filterDate (l.filter q) a b = filterDate l a b := by
  simp only [filterDate, List.filter_filter]
  apply List.filter_congr
  intro x hx
  cases hts : x.time_start with
  | none => simp
  | some ts =>
    cases hin : inRange a b ts with
    | false => simp [hin]
    | true => simp [h x hx ts hts hin]

/-- Scenes that lie in no window do not change any composite. -/
theorem s1res_filter [LinearOrderedField V] (E : Engine Px V) (hE : E.Labelled)
    (catalogue : List (Image Px V)) (s e k : Nat) (hD : DualPol catalogue s e)
    (q : Image Px V → Bool)
    (hq : ∀ x ∈ s1 catalogue s e, ∀ w ∈ dates s e k, ∀ ts, x.time_start = some ts →
      inRange w.1 w.2 ts = true → q x = true) :
    s1res E (catalogue.filter q) s e k = s1res E catalogue s e k := by
  have hD2 : DualPol (catalogue.filter q) s e := by
    intro x hx
    rw [s1_filter] at hx
    exact hD x (List.mem_filter.mp hx).1
  unfold s1res
  apply List.map_congr_left
  intro w hw
  rw [s1_lin_eq E hE _ s e hD, s1_lin_eq E hE _ s e hD2]
  unfold composite
  simp only [Option.some_bind]
  rw [filterDate_map _ _ (lin_time E), filterDate_map _ _ (lin_time E), s1_filter,
    filterDate_filter _ q w.1 w.2 (fun x hx ts hts hin => hq x hx w hw ts hts hin)]

/-! ## Facts about the example catalogue -/

theorem sampleEngine_labelled : sampleEngine.Labelled := by
  intro img k n
  simp [sampleEngine]

/-! ## Facts about features -/

theorem set1_geometry (f : Feature G) (name : String) (v : PropValue) :
    (f.set1 name v).geometry = f.geometry := rfl

theorem set_geometry (f : Feature G) (dict : List (String × PropValue)) :
    (f.set dict).geometry = f.geometry := by
  unfold Feature.set
  induction dict generalizing f with
  | nil => rfl
  | cons kv dict ih =>
    simp only [List.foldl_cons]
    rw [ih, set1_geometry]

theorem normalise_geometry (f : Feature G) : (normalise f).geometry = f.geometry := by
  unfold normalise Feature.select
  exact set_geometry f _

theorem tagStratum_geometry (geo : Geo G) (f : Feature G) :
    (tagStratum geo f).geometry = f.geometry := by
  unfold tagStratum
  exact set_geometry f _

theorem set1_get (f : Feature G) (name : String) (v : PropValue) :
    (f.set1 name v).get name = v := by
  unfold Feature.get Feature.set1
  simp only [List.find?_append]
  have hnone : (f.properties.filter (fun kv => !(kv.1 == name))).find? (fun kv => kv.1 == name)
      = none := by
    rw [List.find?_eq_none]
    intro x hx
    have := (List.mem_filter.mp hx).2
    simpa using this
  rw [hnone]
  simp

theorem tagStratum_get (geo : Geo G) (f : Feature G) :
    (tagStratum geo f).get "stratum"
      = PropValue.num (if geo.intersects f.geometry (medGeom geo) (some 1) then 2 else 1) := by
  unfold tagStratum Feature.set
  simp only [List.foldl_cons, List.foldl_nil]
  exact set1_get f _ _

/-! ## Facts about the edge mask -/

/-- Edge masking applies one mask, that of `edgeMask`, to every band. -/
theorem maskEdge_eq [LinearOrderedField V] (E : Engine Px V) (img : Image Px V) :
    maskEdge E img = (edgeMask E img).map (fun mask =>
      { img with bands := img.bands.map (fun b => (b.1, masked mask b.2)) }) := by
  unfold maskEdge edgeMask
  cases hb : edgeBytes E img with
  | none => rfl
  | some bytes =>
    simp only [Option.some_bind]
    generalize E.connectedComponents bytes (Kernel.rectangle 1 1) 100 = cc
    obtain ⟨cbands, cts, cim, cpol⟩ := cc
    cases cbands with
    | nil => rfl
    | cons m ms =>
      simp only [Image.select0, Option.some_bind, Image.mapPixels, List.map_cons, List.map_nil,
        Image.updateMask, Option.map_some']
      rfl

/-- The bytes seen by the mask come from the first band alone. -/
theorem edgeBytes_eq [LinearOrderedField V] (E : Engine Px V) (img : Image Px V) :
    edgeBytes E img = match img.bands with
      | [] => none
      | b :: _ => some ⟨[(b.1, fun p => (b.2 p).map (edgeByte E))], none, none, []⟩ := by
  unfold edgeBytes Image.select0
  cases h : img.bands with
  | nil => rfl
  | cons b bs =>
    simp only [Option.map_some', Image.mapPixels, List.map_cons, List.map_nil, Option.map_map]
    rfl

/-- With connected components that copy their input, the mask is non-zero only where the byte
of channel 0 is, and it is that byte at a pixel whose byte no other pixel has. -/
theorem edgeMask_spec [LinearOrderedField V] (E : Engine Px V) (hE : E.ComponentsCopy)
    (img : Image Px V) (b0 : String × Raster Px V) (bs : List (String × Raster Px V))
    (himg : img.bands = b0 :: bs) :
    ∃ mask, edgeMask E img = some mask
      ∧ (∀ p k, mask p = some (k + 1) → ∃ x, b0.2 p = some x ∧ edgeByte E x = k + 1)
      ∧ (∀ p x, b0.2 p = some x →
          (∀ q, q ≠ p → ∀ y, b0.2 q = some y → edgeByte E y ≠ edgeByte E x) →
          mask p = some (edgeByte E x)) := by
  unfold edgeMask
  rw [edgeBytes_eq, himg]
  simp only [Option.some_bind]
  obtain ⟨m, ms, hm, hcopy, hone⟩ := hE
    ⟨[(b0.1, fun p => (b0.2 p).map (edgeByte E))], none, none, []⟩
    (b0.1, fun p => (b0.2 p).map (edgeByte E)) [] (Kernel.rectangle 1 1) 100 rfl
  rw [hm]
  refine ⟨_, rfl, ?_, ?_⟩
  · intro p k hk
    cases hmp : m.2 p with
    | none => simp [hmp] at hk
    | some v =>
      obtain ⟨u, hu, rfl⟩ := hcopy p v hmp
      simp only [hmp, Option.map_some', Option.some.injEq, Int.natAbs_ofNat] at hk
      simp only [Option.map_eq_some'] at hu
      obtain ⟨x, hx, hxu⟩ := hu
      exact ⟨x, hx, by rw [hxu, hk]⟩
  · intro p x hx huniq
    have h := hone (by decide) p (edgeByte E x) (by simp [hx]) (by
      intro q hq hq2
      simp only [Option.map_eq_some'] at hq2
      obtain ⟨y, hy, hyx⟩ := hq2
      exact huniq q hq y hy hyx)
    simp [h]

/-- What edge masking does to an image made of one uniform region and one outlier pixel whose
bytes differ, with connected components that copy their input. -/
theorem outlier_fate (E : Engine (Int × Int) Rat) (hE : E.ComponentsCopy) (r o : Rat)
    (p0 : Int × Int) (hb : edgeByte E o ≠ edgeByte E r) :
    ∃ out mask, maskEdge E (outlierImage r o p0) = some out
      ∧ out.bands = (outlierImage r o p0).bands.map (fun b => (b.1, masked mask b.2))
      ∧ mask p0 = some (edgeByte E o)
      ∧ (∀ p, p ≠ p0 → ∀ k, mask p = some (k + 1) → edgeByte E r = k + 1) := by
  obtain ⟨mask, hmask, hnz, huniq⟩ := edgeMask_spec E hE (outlierImage r o p0)
    ("VV", fun p => some (if p = p0 then o else r)) _ rfl
  refine ⟨_, mask, by rw [maskEdge_eq, hmask]; rfl, rfl, ?_, ?_⟩
  · have h := huniq p0 o (by simp) (by
      intro q hq y hy
      simp only [hq, if_false, Option.some.injEq] at hy
      rw [← hy]
      exact fun h => hb h.symm)
    exact h
  · intro p hp k hk
    obtain ⟨x, hx, hxk⟩ := hnz p k hk
    simp only [hp, if_false, Option.some.injEq] at hx
    rw [hx]
    exact hxk

theorem copyEngine_componentsCopy : copyEngine.ComponentsCopy := by
  intro bytes b bs k n hbands
  refine ⟨(b.1, fun p => (b.2 p).map Int.ofNat), _, by simp [copyEngine, hbands]; rfl, ?_, ?_⟩
  · intro p v hv
    simp only [Option.map_eq_some'] at hv
    obtain ⟨u, hu, rfl⟩ := hv
    exact ⟨u, hu, rfl⟩
  · intro _ p u hu _
    simp [hu]

theorem edgeByte_low (E : Engine (Int × Int) Rat) : edgeByte E (-25) = E.toByte 0 := by
  unfold edgeByte unitScale
  norm_num

theorem edgeByte_high (E : Engine (Int × Int) Rat) : edgeByte E 5 = E.toByte 255 := by
  unfold edgeByte unitScale
  norm_num

/-- The fate of every band of an outlier image under edge masking: the outlier pixel is valid
exactly when its byte is non-zero, and a pixel of the region can be valid only when the
region's byte is non-zero. -/
theorem outlier_bands (E : Engine (Int × Int) Rat) (hE : E.ComponentsCopy) (r o : Rat)
    (p0 : Int × Int) (hb : edgeByte E o ≠ edgeByte E r) :
    ∃ out, maskEdge E (outlierImage r o p0) = some out
      ∧ out.bandNames = ["VV", "VH", "angle"]
      ∧ (∀ b ∈ out.bands, ((b.2 p0).isSome = true ↔ edgeByte E o ≠ 0))
      ∧ (∀ b ∈ out.bands, ∀ p, p ≠ p0 → (b.2 p).isSome = true → edgeByte E r ≠ 0)
      ∧ (∀ b ∈ out.bands, ∀ c ∈ out.bands, ∀ p, (b.2 p).isSome = (c.2 p).isSome) := by
  obtain ⟨out, mask, hout, hbands, hp0, hreg⟩ := outlier_fate E hE r o p0 hb
  have hall : ∀ b ∈ out.bands, ∀ p, (b.2 p).isSome = true ↔ ∃ k, mask p = some (k + 1) := by
    intro b hbm p
    rw [hbands] at hbm
    simp only [outlierImage, List.map_cons, List.map_nil, List.mem_cons, List.mem_singleton,
      List.not_mem_nil, or_false] at hbm
    rcases hbm with rfl | rfl | rfl <;>
    · simp only [masked]
      cases hmp : mask p with
      | none => simp
      | some v =>
        cases v with
        | zero => simp
        | succ v => simp
  refine ⟨out, hout, ?_, ?_, ?_, ?_⟩
  · simp [Image.bandNames, hbands, outlierImage]
  · intro b hbm
    rw [hall b hbm p0, hp0]
    constructor
    · rintro ⟨k, hk⟩
      simp only [Option.some.injEq] at hk
      omega
    · intro hne
      exact ⟨edgeByte E o - 1, by simp only [Option.some.injEq]; omega⟩
  · intro b hbm p hp hsome
    obtain ⟨k, hk⟩ := (hall b hbm p).mp hsome
    rw [hreg p hp k hk]
    omega
  · intro b hbm c hcm p
    have h1 := hall b hbm p
    have h2 := hall c hcm p
    cases hb1 : (b.2 p).isSome <;> cases hc1 : (c.2 p).isSome <;> simp_all

theorem edgeByte_copy_zero : edgeByte copyEngine 0 = 212 := by
  simp only [edgeByte, unitScale, copyEngine]
  norm_num [Rat.floor_def']
  rfl

theorem edgeByte_copy_minus_ten : edgeByte copyEngine (-10) = 127 := by
  simp only [edgeByte, unitScale, copyEngine]
  norm_num [Rat.floor_def']
  rfl

/-- With connected components that copy their input, an outlier whose byte is non-zero and
differs from the region's byte is not masked. -/
theorem outlier_not_masked (E : Engine (Int × Int) Rat) (hE : E.ComponentsCopy) (r o : Rat)
    (p0 : Int × Int) (hb : edgeByte E o ≠ edgeByte E r) (ho : edgeByte E o ≠ 0) :
    ¬ MasksOutlier E r o p0 := by
  obtain ⟨out, hout, hn, hp0, _⟩ := outlier_bands E hE r o p0 hb
  rintro ⟨out2, hout2, hall⟩
  rw [hout] at hout2
  cases hout2
  have hlen := congrArg List.length hn
  simp only [Image.bandNames, List.length_map, List.length_cons, List.length_nil] at hlen
  cases hbs : out.bands with
  | nil => rw [hbs] at hlen; cases hlen
  | cons b bs =>
    have hbm : b ∈ out.bands := by rw [hbs]; simp
    have h1 := (hp0 b hbm).mpr ho
    rw [(hall b hbm).1] at h1
    cases h1

/-! ## Claims about the windows -/

/-- C1, as stated, fails for the configured range: the last of the windows built from
2018-01-01, 2018-07-31 and step 10 is `[2018-07-20, 2018-07-30)`, so there is no last window
whose end is on or after 2018-07-31. -/
theorem last_window_before_end :
    (dates 17532 17743 10).getLast? = some (17732, 17742)
    ∧ ¬ ∃ w, (dates 17532 17743 10).getLast? = some w ∧ 17743 ≤ w.2 ∧ w.2 ≤ 17743 + (10 - 1) := by
  have h : (dates 17532 17743 10).getLast? = some (17732, 17742) := by decide
  refine ⟨h, ?_⟩
  rintro ⟨w, hw, h1, _⟩
  rw [h] at hw
  cases hw
  exact absurd h1 (by decide)

/-- C1 (amended): for `step > 0` and `start ≤ end` the windows cover exactly `[start, L)`, where
`L = start + step * ⌊(end - start) / step⌋` is the last boundary generated: a timestamp lies in
some window iff it lies in `[start, L)`.  `L` never exceeds `end`, falls short of it by less than
`step` days, and equals `end` when `end - start` is a multiple of `step`.  When
`end - start ≥ step` the first window is `[start, start + step)` and the last window ends at
`L`. -/
theorem windows_cover (s e k : Nat) (hk : 0 < k) (h : s ≤ e) :
    (∀ ts, (∃ w ∈ dates s e k, inRange w.1 w.2 ts = true)
        ↔ inRange s (s + (e - s) / k * k) ts = true)
    ∧ s + (e - s) / k * k ≤ e
    ∧ e < s + (e - s) / k * k + k
    ∧ ((e - s) % k = 0 → s + (e - s) / k * k = e)
    ∧ (k ≤ e - s →
        (dates s e k).head? = some (s, s + k)
        ∧ ∃ t0, (dates s e k).getLast? = some (t0, s + (e - s) / k * k)) := by
  have hd : 0 < msPerDay := by decide
  have hdm := Nat.div_add_mod (e - s) k
  have hml := Nat.mod_lt (e - s) hk
  have hcomm : k * ((e - s) / k) = (e - s) / k * k := Nat.mul_comm _ _
  refine ⟨?_, by omega, by omega, by intro h0; omega, ?_⟩
  · intro ts
    constructor
    · rintro ⟨w, hw, hin⟩
      obtain ⟨i, hi, rfl⟩ := (mem_dates s e k h w).mp hw
      rw [inRange_iff] at hin ⊢
      have h1 : (i + 1) * k ≤ (e - s) / k * k := Nat.mul_le_mul_right k hi
      have h2 : (s + (i + 1) * k) * msPerDay ≤ (s + (e - s) / k * k) * msPerDay :=
        Nat.mul_le_mul_right _ (by omega)
      have h3 : s * msPerDay ≤ (s + i * k) * msPerDay := Nat.mul_le_mul_right _ (by omega)
      exact ⟨le_trans h3 hin.1, lt_of_lt_of_le hin.2 h2⟩
    · intro hin
      rw [inRange_iff] at hin
      obtain ⟨h1, h2⟩ := hin
      have a1 : s ≤ ts / msPerDay := (Nat.le_div_iff_mul_le hd).mpr h1
      have a2 : ts / msPerDay < s + (e - s) / k * k := (Nat.div_lt_iff_lt_mul hd).mpr h2
      have b : ts / msPerDay - s < (e - s) / k * k := by omega
      have hi : (ts / msPerDay - s) / k < (e - s) / k := (Nat.div_lt_iff_lt_mul hk).mpr b
      refine ⟨(s + (ts / msPerDay - s) / k * k, s + ((ts / msPerDay - s) / k + 1) * k),
        (mem_dates s e k h _).mpr ⟨_, hi, rfl⟩, ?_⟩
      rw [inRange_iff]
      have c1 := Nat.div_add_mod (ts / msPerDay - s) k
      have c2 := Nat.mod_lt (ts / msPerDay - s) hk
      have c3 : k * ((ts / msPerDay - s) / k) = (ts / msPerDay - s) / k * k := Nat.mul_comm _ _
      have c4 : ((ts / msPerDay - s) / k + 1) * k = (ts / msPerDay - s) / k * k + k := by
        rw [Nat.add_mul, Nat.one_mul]
      have d1 : s + (ts / msPerDay - s) / k * k ≤ ts / msPerDay := by omega
      have d2 : ts / msPerDay < s + ((ts / msPerDay - s) / k + 1) * k := by omega
      exact ⟨(Nat.le_div_iff_mul_le hd).mp d1, (Nat.div_lt_iff_lt_mul hd).mp d2⟩
  · intro hge
    have hpos : 0 < (e - s) / k := Nat.div_pos hge hk
    rw [dates_eq s e k h]
    obtain ⟨n, hn⟩ : ∃ n, (e - s) / k = n + 1 := ⟨(e - s) / k - 1, by omega⟩
    rw [hn]
    refine ⟨?_, s + n * k, ?_⟩
    · simp [List.range_succ_eq_map]
    · simp [List.range_succ]

/-- C1 (amended), at the configured range 2018-01-01 to 2018-07-31 with step 10. -/
theorem windows_cover_configured :
    0 < 10 ∧ 17532 ≤ 17743 ∧
    ((∀ ts, (∃ w ∈ dates 17532 17743 10, inRange w.1 w.2 ts = true)
        ↔ inRange 17532 (17532 + (17743 - 17532) / 10 * 10) ts = true)
    ∧ 17532 + (17743 - 17532) / 10 * 10 ≤ 17743
    ∧ 17743 < 17532 + (17743 - 17532) / 10 * 10 + 10
    ∧ ((17743 - 17532) % 10 = 0 → 17532 + (17743 - 17532) / 10 * 10 = 17743)
    ∧ (10 ≤ 17743 - 17532 →
        (dates 17532 17743 10).head? = some (17532, 17532 + 10)
        ∧ ∃ t0, (dates 17532 17743 10).getLast? = some (t0, 17532 + (17743 - 17532) / 10 * 10))) :=
  ⟨by decide, by decide, windows_cover 17532 17743 10 (by decide) (by decide)⟩

/-- C2: for `step > 0` and `start ≤ end` every window has `t0 < t1`, each window ends where the
next one starts, later windows start no earlier than earlier ones end, and a timestamp lies in
at most one window `[t0, t1)`. -/
theorem windows_contiguous (s e k : Nat) (hk : 0 < k) (h : s ≤ e) :
    (∀ w ∈ dates s e k, w.1 < w.2)
    ∧ (∀ i a b, (dates s e k).get? i = some a → (dates s e k).get? (i + 1) = some b → a.2 = b.1)
    ∧ (dates s e k).Pairwise (fun a b => a.2 ≤ b.1)
    ∧ (∀ ts i j a b, (dates s e k).get? i = some a → (dates s e k).get? j = some b →
        inRange a.1 a.2 ts = true → inRange b.1 b.2 ts = true → i = j) := by
  refine ⟨?_, ?_, ?_, ?_⟩
  · intro w hw
    obtain ⟨i, _, rfl⟩ := (mem_dates s e k h w).mp hw
    have : (i + 1) * k = i * k + k := by rw [Nat.add_mul, Nat.one_mul]
    simp only
    omega
  · intro i a b ha hb
    rw [dates_get? s e k h] at ha hb
    split_ifs at ha hb
    cases ha
    cases hb
    rfl
  · rw [dates_eq s e k h, List.pairwise_map]
    refine List.Pairwise.imp ?_ (List.pairwise_lt_range _)
    intro a b hab
    have : (a + 1) * k ≤ b * k := Nat.mul_le_mul_right k hab
    simp only
    omega
  · intro ts i j a b ha hb hia hib
    rw [dates_get? s e k h] at ha hb
    split_ifs at ha hb
    cases ha
    cases hb
    rw [inRange_window s k i ts hk hia, inRange_window s k j ts hk hib]

/-- C2 at the range 2018-01-01 to 2018-01-21 with step 10. -/
theorem windows_contiguous_example :
    0 < 10 ∧ 17532 ≤ 17552 ∧ dates 17532 17552 10 = [(17532, 17542), (17542, 17552)] ∧
    ((∀ w ∈ dates 17532 17552 10, w.1 < w.2)
    ∧ (∀ i a b, (dates 17532 17552 10).get? i = some a →
        (dates 17532 17552 10).get? (i + 1) = some b → a.2 = b.1)
    ∧ (dates 17532 17552 10).Pairwise (fun a b => a.2 ≤ b.1)
    ∧ (∀ ts i j a b, (dates 17532 17552 10).get? i = some a →
        (dates 17532 17552 10).get? j = some b →
        inRange a.1 a.2 ts = true → inRange b.1 b.2 ts = true → i = j)) :=
  ⟨by decide, by decide, by decide, windows_contiguous 17532 17552 10 (by decide) (by decide)⟩

/-- C3, as stated, fails: from 2018-01-01 to 2018-01-06 with step 10 the range is not empty
(`start < end`), yet no window is produced. -/
theorem no_window_in_short_range :
    0 < 10 ∧ 17532 < 17537 ∧ dates 17532 17537 10 = [] := by
  decide

/-- C3 (amended): for `step > 0` and `start ≤ end` the list `dates` has exactly
`⌊(end - start) / step⌋` windows; it is empty exactly when `end - start < step` (which includes
`start = end`), and holds at least one window whenever `end - start ≥ step`. -/
theorem windows_empty_iff (s e k : Nat) (hk : 0 < k) (h : s ≤ e) :
    (dates s e k).length = (e - s) / k
    ∧ (dates s e k = [] ↔ e - s < k)
    ∧ (k ≤ e - s → ∃ w, w ∈ dates s e k) := by
  have hlen := dates_length s e k h
  have hz : (e - s) / k = 0 ↔ e - s < k := Nat.div_eq_zero_iff hk
  refine ⟨hlen, ?_, ?_⟩
  · rw [← List.length_eq_zero, hlen]; exact hz
  · intro hge
    have hpos : 0 < (e - s) / k := Nat.div_pos hge hk
    exact ⟨(s + 0 * k, s + (0 + 1) * k), (mem_dates s e k h _).mpr ⟨0, hpos, rfl⟩⟩

/-- C3 (amended) at the configured range: 21 windows. -/
theorem windows_empty_iff_configured :
    0 < 10 ∧ 17532 ≤ 17743 ∧
    ((dates 17532 17743 10).length = (17743 - 17532) / 10
    ∧ (dates 17532 17743 10 = [] ↔ 17743 - 17532 < 10)
    ∧ (10 ≤ 17743 - 17532 → ∃ w, w ∈ dates 17532 17743 10)) :=
  ⟨by decide, by decide, windows_empty_iff 17532 17743 10 (by decide) (by decide)⟩

/-! ## Claims about the band names of the stack -/

/-- C4, as stated, fails on its own scenario: for 2018-01-01 to 2018-01-21 with step 10 and a
catalogue with a scene in both windows, the bands of `s1stack` are those of the later window
followed by those of the earlier one, not the chronological sequence; and for `start = end`
there is no window and `s1stack` is an error, not an image with zero bands. -/
theorem stack_order_latest_first :
    (s1stack sampleEngine (sampleCatalogue 17532 17552 10) 17532 17552 10).map Image.bandNames
        = some ["VV_20180111", "VH_20180111", "VV_20180101", "VH_20180101"]
    ∧ (s1stack sampleEngine (sampleCatalogue 17532 17552 10) 17532 17552 10).map Image.bandNames
        ≠ some ["VV_20180101", "VH_20180101", "VV_20180111", "VH_20180111"]
    ∧ dates 17532 17532 10 = []
    ∧ (s1stack sampleEngine (sampleCatalogue 17532 17532 10) 17532 17532 10).map Image.bandNames
        = none := by
  decide

/-- C4 (amended): for `step > 0` and `start ≤ end`, whenever `s1stack` is produced its band-name
sequence is the concatenation, over the windows from the latest to the earliest, of
`[VV_<start as YYYYMMDD>, VH_<start as YYYYMMDD>]`, so its band count is twice the number of
windows; and it is produced when there is at least one window (`end - start ≥ step`) and every
window holds a scene of the catalogue. -/
theorem stack_band_names [LinearOrderedField V] (E : Engine Px V)
    (catalogue : List (Image Px V)) (s e k : Nat) (hk : 0 < k) (hse : s ≤ e) :
    (∀ img, s1stack E catalogue s e k = some img →
      img.bandNames
          = ((dates s e k).reverse.map
              (fun w => ["VV_" ++ format w.1, "VH_" ++ format w.1])).flatten
        ∧ img.bands.length = (dates s e k).length * 2)
    ∧ (E.Labelled → DualPol catalogue s e → (∀ w ∈ dates s e k, Covered catalogue s e w) →
        k ≤ e - s → ∃ img, s1stack E catalogue s e k = some img) := by
  constructor
  · intro img himg
    obtain ⟨hne, hall⟩ := s1stack_some E catalogue s e k img himg
    have h := s1stack_names_core E catalogue s e k hk hse hall hne
    rw [himg] at h
    simp only [Option.map_some', Option.some.injEq] at h
    refine ⟨h, ?_⟩
    have hl := congrArg List.length h
    simp only [Image.bandNames, List.length_map] at hl
    rw [hl, compositeNames_flatten_length, List.length_reverse]
  · intro hE hD hC hge
    have hpos : 0 < (e - s) / k := Nat.div_pos hge hk
    have hne : dates s e k ≠ [] := by
      intro h0
      have := dates_length s e k hse
      rw [h0] at this
      simp at this
      omega
    have h := s1stack_names_core E catalogue s e k hk hse
      (fun w hw => composite_produced E hE catalogue s e hD w (hC w hw)) hne
    cases hs : s1stack E catalogue s e k with
    | none => rw [hs] at h; simp at h
    | some img => exact ⟨img, rfl⟩

/-- C4 (amended) on the scenario 2018-01-01 to 2018-01-21 with step 10 and a scene in both
windows: the stack is produced, with the four bands of the two windows, the later one first. -/
theorem stack_band_names_example :
    0 < 10 ∧ 17532 ≤ 17552 ∧ sampleEngine.Labelled
    ∧ DualPol (sampleCatalogue 17532 17552 10) 17532 17552
    ∧ (∀ w ∈ dates 17532 17552 10, Covered (sampleCatalogue 17532 17552 10) 17532 17552 w)
    ∧ 10 ≤ 17552 - 17532
    ∧ ∃ img, s1stack sampleEngine (sampleCatalogue 17532 17552 10) 17532 17552 10 = some img
        ∧ img.bandNames = ["VV_20180111", "VH_20180111", "VV_20180101", "VH_20180101"]
        ∧ img.bands.length = 4 := by
  have t := stack_band_names sampleEngine (sampleCatalogue 17532 17552 10) 17532 17552 10
    (by decide) (by decide)
  have hD : DualPol (sampleCatalogue 17532 17552 10) 17532 17552 := by unfold DualPol; decide
  have hC : ∀ w ∈ dates 17532 17552 10,
      Covered (sampleCatalogue 17532 17552 10) 17532 17552 w := by unfold Covered; decide
  obtain ⟨img, himg⟩ := t.2 sampleEngine_labelled hD hC (by decide)
  obtain ⟨hn, hl⟩ := t.1 img himg
  have hnames : ((dates 17532 17552 10).reverse.map
      (fun w => ["VV_" ++ format w.1, "VH_" ++ format w.1])).flatten
        = ["VV_20180111", "VH_20180111", "VV_20180101", "VH_20180101"] := by decide
  have hlen : (dates 17532 17552 10).length * 2 = 4 := by decide
  exact ⟨by decide, by decide, sampleEngine_labelled, hD, hC, by decide, img, himg,
    hn.trans hnames, hl.trans hlen⟩

/-- C5: for `step > 0` and `start ≤ end`, different windows have different date stamps, a `VV_`
name never equals a `VH_` name, the names given to all the composites are pairwise distinct,
and so are the band names of `s1stack` whenever it is produced. -/
theorem band_names_distinct [LinearOrderedField V] (E : Engine Px V)
    (catalogue : List (Image Px V)) (s e k : Nat) (hk : 0 < k) (hse : s ≤ e) :
    ((dates s e k).map (fun w => format w.1)).Nodup
    ∧ (∀ w ∈ dates s e k, ∀ u ∈ dates s e k, "VV_" ++ format w.1 ≠ "VH_" ++ format u.1)
    ∧ ((dates s e k).map (fun w => compositeNames (format w.1))).flatten.Nodup
    ∧ (∀ img, s1stack E catalogue s e k = some img → img.bandNames.Nodup) := by
  have hst := dates_starts_nodup s e k hk hse
  have hnd := compositeNames_nodup _ hst
  rw [List.map_map] at hnd
  refine ⟨?_, ?_, hnd, ?_⟩
  · have : (dates s e k).map (fun w => format w.1) = ((dates s e k).map Prod.fst).map format := by
      rw [List.map_map]; rfl
    rw [this]
    exact (List.nodup_map_iff_inj_on hst).mpr (fun a _ b _ hab => format_inj a b hab)
  · intro w _ u _
    exact vv_ne_vh _ _
  · intro img himg
    obtain ⟨hne, hall⟩ := s1stack_some E catalogue s e k img himg
    have h := s1stack_names_core E catalogue s e k hk hse hall hne
    rw [himg] at h
    simp only [Option.map_some', Option.some.injEq] at h
    rw [h]
    have hp : ((dates s e k).reverse.map (fun w => compositeNames (format w.1))).flatten.Perm
        (((dates s e k).map (fun w => compositeNames (format w.1))).flatten) :=
      List.Perm.flatten ((List.reverse_perm _).map _)
    exact hp.nodup_iff.mpr hnd

/-- C5 on the configured range, with a scene in each of its windows. -/
theorem band_names_distinct_configured :
    0 < 10 ∧ 17532 ≤ 17743 ∧
    (((dates 17532 17743 10).map (fun w => format w.1)).Nodup
    ∧ (∀ w ∈ dates 17532 17743 10, ∀ u ∈ dates 17532 17743 10,
        "VV_" ++ format w.1 ≠ "VH_" ++ format u.1)
    ∧ ((dates 17532 17743 10).map (fun w => compositeNames (format w.1))).flatten.Nodup
    ∧ (∀ img, s1stack sampleEngine (sampleCatalogue 17532 17743 10) 17532 17743 10 = some img →
        img.bandNames.Nodup)) :=
  ⟨by decide, by decide,
    band_names_distinct sampleEngine (sampleCatalogue 17532 17743 10) 17532 17743 10
      (by decide) (by decide)⟩

/-! ## The configured run -/

/-- The 42 band names of the configured run, in stack order. -/
theorem configured_names :
    ((dates start_date end_date step).reverse.map
        (fun w => compositeNames (format w.1))).flatten
      = [
        "VV_20180720", "VH_20180720", "VV_20180710", "VH_20180710",
        "VV_20180630", "VH_20180630", "VV_20180620", "VH_20180620",
        "VV_20180610", "VH_20180610", "VV_20180531", "VH_20180531",
        "VV_20180521", "VH_20180521", "VV_20180511", "VH_20180511",
        "VV_20180501", "VH_20180501", "VV_20180421", "VH_20180421",
        "VV_20180411", "VH_20180411", "VV_20180401", "VH_20180401",
        "VV_20180322", "VH_20180322", "VV_20180312", "VH_20180312",
        "VV_20180302", "VH_20180302", "VV_20180220", "VH_20180220",
        "VV_20180210", "VH_20180210", "VV_20180131", "VH_20180131",
        "VV_20180121", "VH_20180121", "VV_20180111", "VH_20180111",
        "VV_20180101", "VH_20180101" ] := by
  decide

/-- C10: for the configured inputs (2018-01-01, 2018-07-31, step 10) there are exactly 21
windows, each 10 days wide, the last one `[2018-07-20, 2018-07-30)`; with a scene of the
catalogue in every window `s1stack` has exactly 42 bands, `VV_` and `VH_` for every tenth day
from 20180101 to 20180720 (the latest window stacked first); a timestamp in
`[2018-07-30, 2018-07-31)` passes the date filter of `s1` and lies in no window, and the
composites are the same with and without the scenes acquired in that interval. -/
theorem configured_run [LinearOrderedField V] (E : Engine Px V) (hE : E.Labelled)
    (catalogue : List (Image Px V)) (hD : DualPol catalogue start_date end_date)
    (hC : ∀ w ∈ dates start_date end_date step, Covered catalogue start_date end_date w) :
    (dates start_date end_date step).length = 21
    ∧ (∀ w ∈ dates start_date end_date step, w.2 = w.1 + 10)
    ∧ (dates start_date end_date step).head? = some (17532, 17542)
    ∧ (dates start_date end_date step).getLast? = some (17732, 17742)
    ∧ format 17532 = "20180101" ∧ format 17732 = "20180720" ∧ format 17742 = "20180730"
    ∧ format end_date = "20180731"
    ∧ (∃ img, s1stack E catalogue start_date end_date step = some img
        ∧ img.bands.length = 42
        ∧ img.bandNames = [
        "VV_20180720", "VH_20180720", "VV_20180710", "VH_20180710",
        "VV_20180630", "VH_20180630", "VV_20180620", "VH_20180620",
        "VV_20180610", "VH_20180610", "VV_20180531", "VH_20180531",
        "VV_20180521", "VH_20180521", "VV_20180511", "VH_20180511",
        "VV_20180501", "VH_20180501", "VV_20180421", "VH_20180421",
        "VV_20180411", "VH_20180411", "VV_20180401", "VH_20180401",
        "VV_20180322", "VH_20180322", "VV_20180312", "VH_20180312",
        "VV_20180302", "VH_20180302", "VV_20180220", "VH_20180220",
        "VV_20180210", "VH_20180210", "VV_20180131", "VH_20180131",
        "VV_20180121", "VH_20180121", "VV_20180111", "VH_20180111",
        "VV_20180101", "VH_20180101" ])
    ∧ (∀ ts, inRange 17742 17743 ts = true →
        inRange start_date end_date ts = true
        ∧ ∀ w ∈ dates start_date end_date step, inRange w.1 w.2 ts = false)
    ∧ s1res E (catalogue.filter (fun img => match img.time_start with
          | some ts => !inRange 17742 17743 ts
          | none => true)) start_date end_date step
        = s1res E catalogue start_date end_date step := by
  have hends : ∀ w ∈ dates start_date end_date step, w.2 ≤ 17742 := by decide
  have hout : ∀ ts, inRange 17742 17743 ts = true →
      ∀ w ∈ dates start_date end_date step, inRange w.1 w.2 ts = false := by
    intro ts hts w hw
    rw [inRange_iff] at hts
    cases hin : inRange w.1 w.2 ts with
    | false => rfl
    | true =>
      rw [inRange_iff] at hin
      have := Nat.mul_le_mul_right msPerDay (hends w hw)
      omega
  refine ⟨by decide, by decide, by decide, by decide, by decide, by decide, by decide,
    by decide, ?_, ?_, ?_⟩
  · have hne : dates start_date end_date step ≠ [] := by decide
    have h := s1stack_names_core E catalogue start_date end_date step (by decide) (by decide)
      (fun w hw => composite_produced E hE catalogue _ _ hD w (hC w hw)) hne
    rw [configured_names] at h
    cases hs : s1stack E catalogue start_date end_date step with
    | none => rw [hs] at h; simp at h
    | some img =>
      rw [hs] at h
      simp only [Option.map_some', Option.some.injEq] at h
      refine ⟨img, rfl, ?_, h⟩
      have hl := congrArg List.length h
      simpa [Image.bandNames] using hl
  · intro ts hts
    refine ⟨?_, hout ts hts⟩
    rw [inRange_iff] at hts ⊢
    have h1 : start_date * msPerDay ≤ 17742 * msPerDay :=
      Nat.mul_le_mul_right msPerDay (by decide)
    have h2 : end_date = 17743 := rfl
    rw [h2]
    omega
  · apply s1res_filter E hE catalogue start_date end_date step hD
    intro x _ w hw ts hts hin
    have hf := hout ts
    cases h3 : inRange 17742 17743 ts with
    | false => simp [hts, h3]
    | true =>
      have := hf h3 w hw
      rw [hin] at this
      cases this

/-- C10 with one scene at the start of each of the 21 windows. -/
theorem configured_run_example :
    sampleEngine.Labelled
    ∧ DualPol (sampleCatalogue start_date end_date step) start_date end_date
    ∧ (∀ w ∈ dates start_date end_date step,
        Covered (sampleCatalogue start_date end_date step) start_date end_date w)
    ∧ (∃ img, s1stack sampleEngine (sampleCatalogue start_date end_date step)
          start_date end_date step = some img
        ∧ img.bands.length = 42
        ∧ img.bandNames = [
        "VV_20180720", "VH_20180720", "VV_20180710", "VH_20180710",
        "VV_20180630", "VH_20180630", "VV_20180620", "VH_20180620",
        "VV_20180610", "VH_20180610", "VV_20180531", "VH_20180531",
        "VV_20180521", "VH_20180521", "VV_20180511", "VH_20180511",
        "VV_20180501", "VH_20180501", "VV_20180421", "VH_20180421",
        "VV_20180411", "VH_20180411", "VV_20180401", "VH_20180401",
        "VV_20180322", "VH_20180322", "VV_20180312", "VH_20180312",
        "VV_20180302", "VH_20180302", "VV_20180220", "VH_20180220",
        "VV_20180210", "VH_20180210", "VV_20180131", "VH_20180131",
        "VV_20180121", "VH_20180121", "VV_20180111", "VH_20180111",
        "VV_20180101", "VH_20180101" ]) :=
  ⟨sampleEngine_labelled, by unfold DualPol; decide, by unfold Covered; decide,
    (configured_run sampleEngine sampleEngine_labelled
      (sampleCatalogue start_date end_date step) (by unfold DualPol; decide)
      (by unfold Covered; decide)).2.2.2.2.2.2.2.2.1⟩

/-! ## Claims about the conversions and about the parcel subsets -/

/-- C7: with the engine's `pow` and `log10` read as the real power and the real logarithm in
base 10, the per-pixel conversions of `toNatural` (`x ↦ 10 ^ (x / 10)`) and `toDB`
(`x ↦ 10 * log10 x`) are mutually inverse on positive reals. -/
theorem conversions_inverse (E : Engine Px ℝ) (hpow : E.pow = fun a b => a ^ b)
    (hlog : E.log10 = Real.logb 10) (x : ℝ) (hx : 0 < x) :
    toNaturalPx E (toDBPx E x) = x ∧ toDBPx E (toNaturalPx E x) = x := by
  unfold toNaturalPx toDBPx
  rw [hpow, hlog]
  constructor
  · simp only
    rw [mul_div_assoc, div_self (by norm_num : (10 : ℝ) ≠ 0), mul_one]
    exact Real.rpow_logb (by norm_num) (by norm_num) hx
  · simp only
    rw [Real.logb_rpow (by norm_num) (by norm_num)]
    exact div_mul_cancel₀ x (by norm_num : (10 : ℝ) ≠ 0)

/-- C7 at the linear value 100, which is 20 dB. -/
theorem conversions_inverse_example :
    (0 : ℝ) < 100 ∧
    (toNaturalPx (⟨fun a b => a ^ b, Real.logb 10, fun x => ⌊x⌋₊, fun x => x,
        fun img _ _ => img.mapPixels Int.ofNat⟩ : Engine Unit ℝ)
      (toDBPx (⟨fun a b => a ^ b, Real.logb 10, fun x => ⌊x⌋₊, fun x => x,
        fun img _ _ => img.mapPixels Int.ofNat⟩ : Engine Unit ℝ) 100) = 100
    ∧ toDBPx (⟨fun a b => a ^ b, Real.logb 10, fun x => ⌊x⌋₊, fun x => x,
        fun img _ _ => img.mapPixels Int.ofNat⟩ : Engine Unit ℝ)
      (toNaturalPx (⟨fun a b => a ^ b, Real.logb 10, fun x => ⌊x⌋₊, fun x => x,
        fun img _ _ => img.mapPixels Int.ofNat⟩ : Engine Unit ℝ) 100) = 100) :=
  ⟨by norm_num, conversions_inverse _ rfl rfl 100 (by norm_num)⟩

/-- C8: the subset handed to `sampleAndExport` for a rectangle `R` of `EU_NW1` to `EU_NE2` holds
exactly the parcels tagged stratum 1, that is those whose geometry does not intersect `medGeom`
(the others are tagged 2 and dropped by the stratum filter), that intersect `R`.  So a parcel
that intersects none of the rectangles is in no exported subset, and a parcel that intersects
several of them is in each of their subsets. -/
theorem exported_subset_membership (geo : Geo G) (polygons : List (Feature G)) :
    (exportedSubsets geo polygons).map Prod.fst
        = ["EU_NW1", "EU_NW2a", "EU_NW2b", "EU_NE1a", "EU_NE1b", "EU_NE1c", "EU_NE1d", "EU_NE2"]
    ∧ (∀ lf ∈ exportedSubsets geo polygons, ∃ r ∈ stratum1Rectangles geo,
        lf = (r.1, filterBounds geo (parcel geo polygons) r.2))
    ∧ (∀ r ∈ stratum1Rectangles geo,
        (r.1, filterBounds geo (parcel geo polygons) r.2) ∈ exportedSubsets geo polygons
        ∧ ∀ q, q ∈ filterBounds geo (parcel geo polygons) r.2 ↔
            ∃ p ∈ polygons, q = tagStratum geo (normalise p)
              ∧ geo.intersects p.geometry (medGeom geo) (some 1) = false
              ∧ geo.intersects p.geometry r.2 none = true)
    ∧ (∀ p, (tagStratum geo (normalise p)).get "stratum"
          = PropValue.num (if geo.intersects p.geometry (medGeom geo) (some 1) then 2 else 1))
    ∧ (∀ p ∈ polygons, ∀ r ∈ stratum1Rectangles geo,
        (tagStratum geo (normalise p) ∈ filterBounds geo (parcel geo polygons) r.2 ↔
          (tagStratum geo (normalise p)).get "stratum" = PropValue.num 1
            ∧ geo.intersects p.geometry r.2 none = true))
    ∧ (∀ p ∈ polygons, (∀ r ∈ stratum1Rectangles geo, geo.intersects p.geometry r.2 none = false) →
        ∀ lf ∈ exportedSubsets geo polygons, tagStratum geo (normalise p) ∉ lf.2) := by
  have hget : ∀ p : Feature G, (tagStratum geo (normalise p)).get "stratum"
      = PropValue.num (if geo.intersects p.geometry (medGeom geo) (some 1) then 2 else 1) := by
    intro p
    rw [tagStratum_get, normalise_geometry]
  have hgeom : ∀ p : Feature G, (tagStratum geo (normalise p)).geometry = p.geometry := by
    intro p
    rw [tagStratum_geometry, normalise_geometry]
  have hstr : ∀ p : Feature G, ((tagStratum geo (normalise p)).get "stratum" = PropValue.num 1)
      ↔ geo.intersects p.geometry (medGeom geo) (some 1) = false := by
    intro p
    rw [hget]
    cases geo.intersects p.geometry (medGeom geo) (some 1) <;> simp
  have hmem : ∀ (R : G) (q : Feature G), q ∈ filterBounds geo (parcel geo polygons) R ↔
      ∃ p ∈ polygons, q = tagStratum geo (normalise p)
        ∧ geo.intersects p.geometry (medGeom geo) (some 1) = false
        ∧ geo.intersects p.geometry R none = true := by
    intro R q
    unfold filterBounds parcel
    simp only [List.mem_filter, List.mem_map, beq_iff_eq]
    constructor
    · rintro ⟨⟨⟨f, ⟨p, hp, rfl⟩, rfl⟩, hs⟩, hi⟩
      rw [hgeom] at hi
      exact ⟨p, hp, rfl, (hstr p).mp hs, hi⟩
    · rintro ⟨p, hp, rfl, hs, hi⟩
      rw [hgeom]
      exact ⟨⟨⟨normalise p, ⟨p, hp, rfl⟩, rfl⟩, (hstr p).mpr hs⟩, hi⟩
  have hmem2 : ∀ p ∈ polygons, ∀ R : G,
      (tagStratum geo (normalise p) ∈ filterBounds geo (parcel geo polygons) R ↔
        (tagStratum geo (normalise p)).get "stratum" = PropValue.num 1
          ∧ geo.intersects p.geometry R none = true) := by
    intro p hp R
    rw [hmem, hstr]
    constructor
    · rintro ⟨p2, _, heq, hs, hi⟩
      have hg : p.geometry = p2.geometry := by
        rw [← hgeom p, ← hgeom p2, heq]
      have hs2 := (hstr p2).mpr hs
      rw [← heq] at hs2
      exact ⟨(hstr p).mp hs2, by rw [hg]; exact hi⟩
    · rintro ⟨hs, hi⟩
      exact ⟨p, hp, rfl, hs, hi⟩
  refine ⟨rfl, ?_, ?_, hget, fun p hp r _ => hmem2 p hp r.2, ?_⟩
  · intro lf hlf
    unfold exportedSubsets at hlf
    obtain ⟨r, hr, rfl⟩ := List.mem_map.mp hlf
    exact ⟨r, hr, rfl⟩
  · intro r hr
    exact ⟨List.mem_map.mpr ⟨r, hr, rfl⟩, hmem r.2⟩
  · intro p hp hnone lf hlf hin
    unfold exportedSubsets at hlf
    obtain ⟨r, hr, rfl⟩ := List.mem_map.mp hlf
    have := ((hmem2 p hp r.2).mp hin).2
    rw [hnone r hr] at this
    cases this

/-! ## Claims about the composite values -/

/-- C6, as stated, fails for a window without any acquisition: with an empty catalogue, the
window `[2018-01-01, 2018-01-11)` selects no value at the pixel, yet its composite is not a
no-data band but a failed request (`mean()` of an empty collection has no band for `select` to
find), and so are all of `s1res` and `s1stack`. -/
theorem empty_window_fails :
    (17532, 17542) ∈ dates 17532 17552 10
    ∧ selectedValues sampleEngine [] 17532 17552 (17532, 17542) 0 () = []
    ∧ specComposite sampleEngine (selectedValues sampleEngine [] 17532 17552 (17532, 17542) 0 ())
        = none
    ∧ (composite sampleEngine (s1_lin sampleEngine [] 17532 17552) (17532, 17542)).isNone = true
    ∧ (s1res sampleEngine [] 17532 17552 10).map Option.isNone = [true, true]
    ∧ (s1stack sampleEngine [] 17532 17552 10).isNone = true := by
  refine ⟨by decide, rfl, rfl, by decide, by decide, by decide⟩

/-- C6 (amended): for every window `[t0, t1)` that holds at least one acquisition of `s1`, the
composite in `s1res` has the two bands `VV_<stamp>` and `VH_<stamp>`, and at every pixel the
value of each is `10 * log10` of the arithmetic mean of `10 ^ (v / 10)` over exactly the dB
values `v` of that channel in the acquisitions with `t0 ≤ t < t1` whose pixel is valid after
edge masking: the mean is taken on linear values.  Where none of the window's acquisitions is
valid at the pixel, the band is no-data there. -/
theorem composite_is_linear_mean [LinearOrderedField V] (E : Engine Px V) (hE : E.Labelled)
    (catalogue : List (Image Px V)) (s e k : Nat) (hD : DualPol catalogue s e)
    (w : Nat × Nat) (hw : w ∈ dates s e k) (hc : Covered catalogue s e w) :
    ∃ img vv vh,
      composite E (s1_lin E catalogue s e) w = some img
      ∧ some img ∈ s1res E catalogue s e k
      ∧ img.bands = [("VV_" ++ format w.1, vv), ("VH_" ++ format w.1, vh)]
      ∧ (∀ p, vv p = specComposite E (selectedValues E catalogue s e w 0 p))
      ∧ (∀ p, vh p = specComposite E (selectedValues E catalogue s e w 1 p))
      ∧ (∀ p, selectedValues E catalogue s e w 0 p = [] → vv p = none)
      ∧ (∀ p, selectedValues E catalogue s e w 1 p = [] → vh p = none) := by
  have h := composite_bands E hE catalogue s e hD w hc
  cases hcomp : composite E (s1_lin E catalogue s e) w with
  | none => rw [hcomp] at h; simp at h
  | some img =>
    rw [hcomp] at h
    simp only [Option.map_some', Option.some.injEq] at h
    refine ⟨img, _, _, rfl, ?_, h, fun p => rfl, fun p => rfl, ?_, ?_⟩
    · unfold s1res
      exact List.mem_map.mpr ⟨w, hw, hcomp⟩
    · intro p hp
      simp only [hp]
      rfl
    · intro p hp
      simp only [hp]
      rfl

/-- C6 (amended) for the first window of 2018-01-01 to 2018-01-21, with a scene in each
window. -/
theorem composite_is_linear_mean_example :
    sampleEngine.Labelled
    ∧ DualPol (sampleCatalogue 17532 17552 10) 17532 17552
    ∧ (17532, 17542) ∈ dates 17532 17552 10
    ∧ Covered (sampleCatalogue 17532 17552 10) 17532 17552 (17532, 17542)
    ∧ ∃ img vv vh,
      composite sampleEngine (s1_lin sampleEngine (sampleCatalogue 17532 17552 10) 17532 17552)
          (17532, 17542) = some img
      ∧ some img ∈ s1res sampleEngine (sampleCatalogue 17532 17552 10) 17532 17552 10
      ∧ img.bands = [("VV_" ++ format 17532, vv), ("VH_" ++ format 17532, vh)]
      ∧ (∀ p, vv p = specComposite sampleEngine
          (selectedValues sampleEngine (sampleCatalogue 17532 17552 10) 17532 17552
            (17532, 17542) 0 p))
      ∧ (∀ p, vh p = specComposite sampleEngine
          (selectedValues sampleEngine (sampleCatalogue 17532 17552 10) 17532 17552
            (17532, 17542) 1 p))
      ∧ (∀ p, selectedValues sampleEngine (sampleCatalogue 17532 17552 10) 17532 17552
            (17532, 17542) 0 p = [] → vv p = none)
      ∧ (∀ p, selectedValues sampleEngine (sampleCatalogue 17532 17552 10) 17532 17552
            (17532, 17542) 1 p = [] → vh p = none) :=
  ⟨sampleEngine_labelled, by unfold DualPol; decide, by decide, by unfold Covered; decide,
    composite_is_linear_mean sampleEngine sampleEngine_labelled
      (sampleCatalogue 17532 17552 10) 17532 17552 10 (by unfold DualPol; decide)
      (17532, 17542) (by decide) (by unfold Covered; decide)⟩

/-! ## Claims about the edge mask -/

/-- C9, as stated, fails on a region at -25 dB with a single-pixel outlier at 5 dB at pixel
`(0, 0)`: channel 0 quantises to byte 0 on the region and to byte 255 on the outlier, so for
every engine whose connected components copy their input (such as `copyEngine`) and whose
byte cast keeps 0 and 255, `maskEdge` keeps the outlier pixel valid and sets every pixel of
the region to no-data, in every channel: the opposite of what the claim says.  It fails as
well inside the range, on a region at -10 dB (byte 127) with an outlier at 0 dB (byte 212):
the outlier is not masked. -/
theorem outlier_kept_region_masked :
    copyEngine.ComponentsCopy ∧ copyEngine.toByte 0 = 0 ∧ copyEngine.toByte 255 = 255
    ∧ (∀ E : Engine (Int × Int) Rat, E.ComponentsCopy → E.toByte 0 = 0 → E.toByte 255 = 255 →
        (∃ out, maskEdge E (outlierImage (-25) 5 (0, 0)) = some out
          ∧ ∀ b ∈ out.bands, (b.2 (0, 0)).isSome = true ∧ ∀ p, p ≠ (0, 0) → b.2 p = none)
        ∧ ¬ MasksOutlier E (-25) 5 (0, 0))
    ∧ ¬ MasksOutlier copyEngine (-25) 5 (0, 0)
    ∧ edgeByte copyEngine (-10) = 127 ∧ edgeByte copyEngine 0 = 212
    ∧ ¬ MasksOutlier copyEngine (-10) 0 (0, 0) := by
  have hgen : ∀ E : Engine (Int × Int) Rat, E.ComponentsCopy → E.toByte 0 = 0 →
      E.toByte 255 = 255 →
      (∃ out, maskEdge E (outlierImage (-25) 5 (0, 0)) = some out
        ∧ ∀ b ∈ out.bands, (b.2 (0, 0)).isSome = true ∧ ∀ p, p ≠ (0, 0) → b.2 p = none)
      ∧ ¬ MasksOutlier E (-25) 5 (0, 0) := by
    intro E hE h0 h255
    have ho : edgeByte E 5 = 255 := by rw [edgeByte_high, h255]
    have hr : edgeByte E (-25) = 0 := by rw [edgeByte_low, h0]
    have hb : edgeByte E 5 ≠ edgeByte E (-25) := by rw [ho, hr]; decide
    have ho0 : edgeByte E 5 ≠ 0 := by rw [ho]; decide
    obtain ⟨out, hout, _, hp0, hreg, _⟩ := outlier_bands E hE (-25) 5 (0, 0) hb
    refine ⟨⟨out, hout, fun b hbm => ⟨(hp0 b hbm).mpr ho0, ?_⟩⟩,
      outlier_not_masked E hE (-25) 5 (0, 0) hb ho0⟩
    intro p hp
    cases hbp : b.2 p with
    | none => rfl
    | some v => exact absurd hr (hreg b hbm p hp (by rw [hbp]; rfl))
  have h0 : copyEngine.toByte 0 = 0 := by decide
  have h255 : copyEngine.toByte 255 = 255 := by decide
  exact ⟨copyEngine_componentsCopy, h0, h255, hgen,
    (hgen copyEngine copyEngine_componentsCopy h0 h255).2,
    edgeByte_copy_minus_ten, edgeByte_copy_zero,
    outlier_not_masked copyEngine copyEngine_componentsCopy (-10) 0 (0, 0)
      (by rw [edgeByte_copy_zero, edgeByte_copy_minus_ten]; decide)
      (by rw [edgeByte_copy_zero]; decide)⟩

/-- C9 (amended): for every image made of one uniform region and one single-pixel outlier
whose channel-0 values quantise to different bytes, and every engine whose connected
components return a copy of their input (objects above the cutoff masked, objects of one
pixel never), `maskEdge` keeps the outlier pixel valid exactly when the outlier's byte is
non-zero, a pixel of the region can stay valid only when the region's byte is non-zero (so a
region of byte 0 is set to no-data), and it does so identically in every channel.  The mask
is computed from channel 0 only: rescale -25..5 to 0..1 (no clamping), times 255, to byte,
connected components with a radius-1 rectangular kernel and cutoff 100, absolute value of band
0 of the result, non-zero = valid. -/
theorem maskEdge_on_outlier (E : Engine (Int × Int) Rat) (hE : E.ComponentsCopy) (r o : Rat)
    (p0 : Int × Int) (hb : edgeByte E o ≠ edgeByte E r) :
    (∃ out, maskEdge E (outlierImage r o p0) = some out
      ∧ out.bandNames = ["VV", "VH", "angle"]
      ∧ (∀ b ∈ out.bands, ((b.2 p0).isSome = true ↔ edgeByte E o ≠ 0))
      ∧ (∀ b ∈ out.bands, ∀ p, p ≠ p0 → (b.2 p).isSome = true → edgeByte E r ≠ 0)
      ∧ (edgeByte E r = 0 → ∀ b ∈ out.bands, ∀ p, p ≠ p0 → b.2 p = none)
      ∧ (∀ b ∈ out.bands, ∀ c ∈ out.bands, ∀ p, (b.2 p).isSome = (c.2 p).isSome))
    ∧ (∀ x : Rat, edgeByte E x = E.toByte ((x - -25) / (5 - -25) * 255))
    ∧ (∀ img2 : Image (Int × Int) Rat,
        img2.bands.head? = (outlierImage r o p0).bands.head? →
        edgeMask E img2 = edgeMask E (outlierImage r o p0))
    ∧ (∀ img : Image (Int × Int) Rat, maskEdge E img = (edgeMask E img).map (fun mask =>
        { img with bands := img.bands.map (fun b => (b.1, masked mask b.2)) })) := by
  obtain ⟨out, hout, hn, hp0, hreg, hsame⟩ := outlier_bands E hE r o p0 hb
  refine ⟨⟨out, hout, hn, hp0, hreg, ?_, hsame⟩, fun x => rfl, ?_, maskEdge_eq E⟩
  · intro hr0 b hbm p hp
    cases hbp : b.2 p with
    | none => rfl
    | some v => exact absurd hr0 (hreg b hbm p hp (by rw [hbp]; rfl))
  · intro img2 h
    unfold edgeMask
    rw [edgeBytes_eq, edgeBytes_eq]
    cases h2 : img2.bands with
    | nil => rw [h2] at h; cases h
    | cons b bs =>
      rw [h2] at h
      simp only [outlierImage, List.head?_cons, Option.some.injEq] at h
      subst h
      rfl

/-- C9 (amended) for a region at -25 dB with an outlier at 5 dB at pixel `(0, 0)`: bytes 0 and
255, the outlier stays valid and the whole region becomes no-data. -/
theorem maskEdge_on_outlier_example :
    copyEngine.ComponentsCopy ∧ edgeByte copyEngine 5 ≠ edgeByte copyEngine (-25)
    ∧ edgeByte copyEngine 5 = 255 ∧ edgeByte copyEngine (-25) = 0
    ∧ ∃ out, maskEdge copyEngine (outlierImage (-25) 5 (0, 0)) = some out
      ∧ out.bandNames = ["VV", "VH", "angle"]
      ∧ (∀ b ∈ out.bands, ((b.2 (0, 0)).isSome = true ↔ edgeByte copyEngine 5 ≠ 0))
      ∧ (∀ b ∈ out.bands, ∀ p, p ≠ (0, 0) → (b.2 p).isSome = true →
          edgeByte copyEngine (-25) ≠ 0)
      ∧ (edgeByte copyEngine (-25) = 0 → ∀ b ∈ out.bands, ∀ p, p ≠ (0, 0) → b.2 p = none)
      ∧ (∀ b ∈ out.bands, ∀ c ∈ out.bands, ∀ p, (b.2 p).isSome = (c.2 p).isSome) := by
  have ho : edgeByte copyEngine 5 = 255 := by rw [edgeByte_high]; decide
  have hr : edgeByte copyEngine (-25) = 0 := by rw [edgeByte_low]; decide
  have hb : edgeByte copyEngine 5 ≠ edgeByte copyEngine (-25) := by rw [ho, hr]; decide
  exact ⟨copyEngine_componentsCopy, hb, ho, hr,
    (maskEdge_on_outlier copyEngine copyEngine_componentsCopy (-25) 5 (0, 0) hb).1⟩

end S1Export
